import Mathlib

/-!
Shallow embedding of the userspace TCP/IPv4 stack implemented in
`app/src/main/jni/moonlight-core-rs/src/tun_stack.rs`, together with
theorems settling specification claims about it.

Modelling conventions:
* Rust `u32` values are `Nat`s, with the wrapping operations `wadd`/`wsub`
  reducing modulo `2^32` exactly where the Rust code wraps;
* `Instant` and `Duration` are `Nat` milliseconds;
* the `BTreeMap<u32, Vec<u8>>` reorder buffer is a key-sorted association
  list (`first_entry` is the head; `insert` replaces an equal key);
* the bounded mpsc channel to the application is modelled by the list of
  chunks delivered on it, together with a `life` counter giving the number
  of `send` calls that still succeed before the receiver is dropped
  (once the receiver is dropped, every later `send` fails);
* bytes are `Nat`s, payloads are `List Nat`.
-/

namespace TunStack

/-- `2^32`, the wrap modulus of Rust `u32` arithmetic. -/
def M32 : Nat := 4294967296

/-- `2^31`; a `u32` reinterpreted as `i32` is negative iff it is `≥ H32`. -/
def H32 : Nat := 2147483648

/-- `a.wrapping_add b` on `u32`. -/
def wadd (a b : Nat) : Nat := (a + b) % M32

/-- `a.wrapping_sub b` on `u32`. -/
def wsub (a b : Nat) : Nat := (a % M32 + M32 - b % M32) % M32

/-- `TcpFlags::SYN` (0x02). -/
def synFlag : Nat := 2

/-- `TcpFlags::ACK` (0x10). -/
def ackFlag : Nat := 16

/-- `TcpFlags::FIN` (0x01). -/
def finFlag : Nat := 1

/-- `TcpFlags::RST` (0x04). -/
def rstFlag : Nat := 4

/-- `TcpFlags::PSH` (0x08). -/
def pshFlag : Nat := 8

/-- `TCP_WINDOW_SCALE_SHIFT`: window scale shift advertised in our SYN. -/
def TCP_WINDOW_SCALE_SHIFT : Nat := 7

/-- The TCP connection states of `enum TcpState`. -/
inductive TcpState where
  | Closed
  | SynSent
  | Established
  | FinWait1
  | FinWait2
  | CloseWait
  | LastAck
  | TimeWait
deriving DecidableEq, Repr

/-- The fields of a parsed inbound TCP header that `process_tcp_packet`
consumes (`etherparse::TcpHeader`). -/
structure TcpHdr where
  source_port : Nat
  destination_port : Nat
  sequence_number : Nat
  acknowledgment_number : Nat
  syn : Bool
  ack : Bool
  fin : Bool
  rst : Bool
  psh : Bool
deriving DecidableEq, Repr

/-- `struct RetransmitSegment`: a segment stored for potential
retransmission. -/
structure RetransmitSegment where
  seq : Nat
  data : List Nat
  flags : Nat
  sent_at : Nat
  retransmit_count : Nat
deriving DecidableEq, Repr

/-- `struct TcpControlBlock` (the per-connection state record); the
`tx_to_app` channel is modelled outside the record. -/
structure TcpControlBlock where
  state : TcpState
  local_seq : Nat
  initial_seq : Nat
  local_ack : Nat
  snd_una : Nat
  created_at : Nat
  last_activity : Nat
  reorder_buffer : List (Nat × List Nat)
  max_reorder_buffer_bytes : Nat
  reorder_buffer_bytes : Nat
  pending_fin_seq : Option Nat
  retransmit_queue : List RetransmitSegment
  rto : Nat
deriving DecidableEq, Repr

/-- `enum TcpPacketAction`: follow-up work decided under the lock. -/
inductive TcpPacketAction where
  | SendAck (seq ack : Nat)
  | SendFinAck (seq ack : Nat)
  | SendData (seq ack : Nat) (data : List Nat)
  | SendMultipleData (seq ack : Nat) (data_segments : List (List Nat))
  | SendDataThenFinAck (seq ack : Nat) (data_segments : List (List Nat))
  | BufferedOutOfOrder (seq ack : Nat)
  | ConnectionEstablished (seq ack : Nat)
  | ConnectionReset
  | SignalEof
  | None
deriving DecidableEq, Repr

/-- The outbound TCP packet assembled by `send_tcp_packet` (header fields,
option block and payload; the IPv4 framing and checksum are byte-level
serialisation of exactly these fields and are not re-modelled). -/
structure BuiltPacket where
  source_port : Nat
  destination_port : Nat
  seq : Nat
  window : Nat
  ackNum : Nat
  syn : Bool
  ack : Bool
  fin : Bool
  rst : Bool
  psh : Bool
  options : List Nat
  payload : List Nat
deriving DecidableEq, Repr

/-- `VirtualStack::send_tcp_packet`: build a TCP packet for the given
connection endpoints, sequence/ack numbers, flag byte and payload.
When SYN is set the fixed 8-byte option block (MSS, NOP, window scale)
is attached. -/
def send_tcp_packet (local_port remote_port : Nat) (seq ackN : Nat)
    (flags : Nat) (payload : List Nat) : BuiltPacket :=
  let syn := (flags &&& synFlag) != 0
  let options : List Nat :=
    if syn then
      let mss : Nat := 1360
      [2, 4, (mss >>> 8) % 256, mss &&& 255,
       1,
       3, 3, TCP_WINDOW_SCALE_SHIFT]
    else []
  { source_port := local_port
    destination_port := remote_port
    seq := seq
    window := 65535
    ackNum := ackN
    syn := syn
    ack := (flags &&& ackFlag) != 0
    fin := (flags &&& finFlag) != 0
    rst := (flags &&& rstFlag) != 0
    psh := (flags &&& pshFlag) != 0
    options := options
    payload := payload }

/-- `VirtualStack::allocate_port`: returns the stored port and the next
value of the `next_local_port` counter (`fetch_add(1)` wraps at `2^16`;
a returned value `≥ 65000` resets the counter to 49152). -/
def allocate_port (next_local_port : Nat) : Nat × Nat :=
  let port := next_local_port
  let bumped := (next_local_port + 1) % 65536
  (port, if 65000 ≤ port then 49152 else bumped)

/-- The `next_local_port` counter before the `n`-th allocation, starting
from the initial value 49152 set in `VirtualStack::new`. -/
def portCounter : Nat → Nat
  | 0 => 49152
  | n + 1 => (allocate_port (portCounter n)).2

/-- The port returned by the `n`-th call to `allocate_port` (counting
from 0) on a freshly created stack. -/
def portAt (n : Nat) : Nat := (allocate_port (portCounter n)).1

/-- `BTreeMap::insert` on the key-sorted association list modelling the
reorder buffer: inserts in key order, replacing the value at an equal
key. -/
def rbInsert (k : Nat) (v : List Nat) : List (Nat × List Nat) → List (Nat × List Nat)
  | [] => [(k, v)]
  | (k', v') :: rest =>
    if k < k' then (k, v) :: (k', v') :: rest
    else if k = k' then (k, v) :: rest
    else (k', v') :: rbInsert k v rest

/-- Result of the contiguous-flush loop over the reorder buffer. -/
structure FlushResult where
  buf : List (Nat × List Nat)
  la : Nat
  bytes : Nat
  segs : List (List Nat)
deriving DecidableEq, Repr

/-- The `while let Some(entry) = tcb.reorder_buffer.first_entry()` loop of
`process_tcp_packet`: repeatedly removes the smallest-key entry while its
key equals `local_ack`, advancing `local_ack` and collecting the data. -/
def flushLoop : List (Nat × List Nat) → Nat → Nat → FlushResult
  | [], la, bytes => ⟨[], la, bytes, []⟩
  | (k, v) :: rest, la, bytes =>
    if k = la then
      let r := flushLoop rest (wadd la v.length) (bytes - v.length)
      ⟨r.buf, r.la, r.bytes, v :: r.segs⟩
    else ⟨(k, v) :: rest, la, bytes, []⟩

/-- The `while let Some(front) = tcb.retransmit_queue.front()` loop: pop
every head segment whose end is at or before the new `snd_una` (signed
modular comparison `(seg_end - snd_una) as i32 <= 0`). -/
def popAcked (snd_una : Nat) : List RetransmitSegment → List RetransmitSegment
  | [] => []
  | seg :: rest =>
    let d := wsub (wadd seg.seq seg.data.length) snd_una
    if d = 0 ∨ H32 ≤ d then popAcked snd_una rest else seg :: rest

/-- The ACK-number processing at the top of the `Established` arm of
`process_tcp_packet`: when the ACK field advances past `snd_una`
(`(ack - snd_una) as i32 > 0`), move `snd_una` forward, drop fully
acknowledged head segments from the retransmit queue and reset the RTO
to 500 ms. -/
def establishedAckProcess (hdr : TcpHdr) (tcb : TcpControlBlock) : TcpControlBlock :=
  if hdr.ack then
    let ack_advance := wsub hdr.acknowledgment_number tcb.snd_una
    if 0 < ack_advance ∧ ack_advance < H32 then
      { tcb with
        snd_una := hdr.acknowledgment_number
        retransmit_queue := popAcked hdr.acknowledgment_number tcb.retransmit_queue
        rto := 500 }
    else tcb
  else tcb

/-- The `TcpState::Established` arm of `process_tcp_packet`: update the
activity timestamp, process the ACK field, then dispatch on RST / FIN /
payload / pure-ACK, returning the updated TCB and the action to run after
the lock is released. -/
def establishedStep (now : Nat) (hdr : TcpHdr) (tcp_payload : List Nat)
    (tcb0 : TcpControlBlock) : TcpControlBlock × TcpPacketAction :=
  let tcb := establishedAckProcess hdr { tcb0 with last_activity := now }
  if hdr.rst then
    ({ tcb with state := .Closed, last_activity := now, retransmit_queue := [] },
     .SignalEof)
  else if hdr.fin then
    let fin_seq := wadd hdr.sequence_number tcp_payload.length
    let seq_diff := wsub hdr.sequence_number tcb.local_ack
    if seq_diff = 0 ∨ H32 ≤ seq_diff then
      -- in-order (or duplicate) FIN
      let st :=
        if tcp_payload ≠ [] ∧ seq_diff = 0 then
          ({ tcb with local_ack := wadd tcb.local_ack tcp_payload.length },
           [tcp_payload])
        else (tcb, ([] : List (List Nat)))
      let tcb1 := st.1
      let fr := flushLoop tcb1.reorder_buffer tcb1.local_ack tcb1.reorder_buffer_bytes
      let segments := st.2 ++ fr.segs
      let tcb2 := { tcb1 with
        reorder_buffer := fr.buf
        reorder_buffer_bytes := fr.bytes
        state := .CloseWait
        local_ack := wadd fin_seq 1 }
      if segments = [] then
        (tcb2, .SendFinAck tcb2.local_seq tcb2.local_ack)
      else
        (tcb2, .SendDataThenFinAck tcb2.local_seq tcb2.local_ack segments)
    else
      -- out-of-order FIN (arrives before preceding data)
      let tcb1 := { tcb with pending_fin_seq := some fin_seq }
      let tcb2 :=
        if tcp_payload ≠ [] ∧
            tcb1.reorder_buffer_bytes + tcp_payload.length ≤ tcb1.max_reorder_buffer_bytes then
          { tcb1 with
            reorder_buffer_bytes := tcb1.reorder_buffer_bytes + tcp_payload.length
            reorder_buffer := rbInsert hdr.sequence_number tcp_payload tcb1.reorder_buffer }
        else tcb1
      (tcb2, .BufferedOutOfOrder tcb2.local_seq tcb2.local_ack)
  else if tcp_payload ≠ [] then
    let pkt_seq := hdr.sequence_number
    let seq_diff := wsub pkt_seq tcb.local_ack
    if H32 ≤ seq_diff then
      -- duplicate or retransmit - just ACK
      (tcb, .SendAck tcb.local_seq tcb.local_ack)
    else if seq_diff = 0 then
      -- in-order segment
      let tcb1 := { tcb with local_ack := wadd pkt_seq tcp_payload.length }
      let fr := flushLoop tcb1.reorder_buffer tcb1.local_ack tcb1.reorder_buffer_bytes
      let tcb2 := { tcb1 with
        reorder_buffer := fr.buf
        reorder_buffer_bytes := fr.bytes
        local_ack := fr.la }
      let segments := tcp_payload :: fr.segs
      match tcb2.pending_fin_seq with
      | some fin_seq =>
        if tcb2.local_ack = fin_seq then
          let tcb3 := { tcb2 with
            pending_fin_seq := none
            state := .CloseWait
            local_ack := wadd fin_seq 1 }
          (tcb3, .SendDataThenFinAck tcb3.local_seq tcb3.local_ack segments)
        else if segments.length = 1 then
          (tcb2, .SendData tcb2.local_seq tcb2.local_ack (segments.getLastD []))
        else
          (tcb2, .SendMultipleData tcb2.local_seq tcb2.local_ack segments)
      | none =>
        if segments.length = 1 then
          (tcb2, .SendData tcb2.local_seq tcb2.local_ack (segments.getLastD []))
        else
          (tcb2, .SendMultipleData tcb2.local_seq tcb2.local_ack segments)
    else
      -- out-of-order segment (seq > expected) - buffer it if budget allows
      if tcb.reorder_buffer_bytes + tcp_payload.length ≤ tcb.max_reorder_buffer_bytes then
        let tcb1 := { tcb with
          reorder_buffer_bytes := tcb.reorder_buffer_bytes + tcp_payload.length
          reorder_buffer := rbInsert pkt_seq tcp_payload tcb.reorder_buffer }
        (tcb1, .BufferedOutOfOrder tcb1.local_seq tcb1.local_ack)
      else
        (tcb, .SendAck tcb.local_seq tcb.local_ack)
  else
    -- pure ACK - already processed the ACK number above
    (tcb, .None)

/-- The per-TCB part of `process_tcp_packet` for a packet whose 4-tuple is
present in the connection table: dispatch on the connection state and
return the updated TCB together with the follow-up action. -/
def tcbStep (now : Nat) (hdr : TcpHdr) (tcp_payload : List Nat)
    (tcb : TcpControlBlock) : TcpControlBlock × TcpPacketAction :=
  match tcb.state with
  | .SynSent =>
    if hdr.syn && hdr.ack then
      let tcb1 := { tcb with
        local_ack := wadd hdr.sequence_number 1
        local_seq := hdr.acknowledgment_number
        snd_una := hdr.acknowledgment_number
        state := .Established
        last_activity := now }
      (tcb1, .ConnectionEstablished tcb1.local_seq tcb1.local_ack)
    else if hdr.rst then
      ({ tcb with state := .Closed, last_activity := now }, .ConnectionReset)
    else (tcb, .None)
  | .Established => establishedStep now hdr tcp_payload tcb
  | .FinWait1 =>
    let tcb1 := { tcb with last_activity := now }
    if hdr.rst then ({ tcb1 with state := .Closed }, .None)
    else if hdr.fin && hdr.ack then
      let tcb2 := { tcb1 with
        state := .TimeWait
        local_ack := wadd (wadd hdr.sequence_number tcp_payload.length) 1 }
      (tcb2, .SendAck tcb2.local_seq tcb2.local_ack)
    else if hdr.ack then ({ tcb1 with state := .FinWait2 }, .None)
    else (tcb1, .None)
  | .FinWait2 =>
    let tcb1 := { tcb with last_activity := now }
    if hdr.rst then ({ tcb1 with state := .Closed }, .None)
    else if hdr.fin then
      let tcb2 := { tcb1 with
        state := .TimeWait
        local_ack := wadd (wadd hdr.sequence_number tcp_payload.length) 1 }
      (tcb2, .SendAck tcb2.local_seq tcb2.local_ack)
    else (tcb1, .None)
  | .CloseWait =>
    let tcb1 := { tcb with last_activity := now }
    if hdr.rst then ({ tcb1 with state := .Closed }, .None)
    else (tcb1, .None)
  | .LastAck =>
    let tcb1 := { tcb with last_activity := now }
    if hdr.ack then
      ({ tcb1 with state := .Closed, last_activity := now }, .None)
    else (tcb1, .None)
  | .TimeWait =>
    let tcb1 := { tcb with last_activity := now }
    if hdr.fin then (tcb1, .SendAck tcb1.local_seq tcb1.local_ack)
    else (tcb1, .None)
  | .Closed => (tcb, .None)

/-- The orphan branch of `process_tcp_packet` (4-tuple absent from the
connection table): for a non-RST packet synthesize a RST (using the
incoming ACK number as our sequence when ACK is set, else a RST+ACK
acknowledging the incoming segment); emit nothing for an RST. -/
def orphanPackets (local_port remote_port : Nat) (hdr : TcpHdr)
    (tcp_payload : List Nat) : List BuiltPacket :=
  if !hdr.rst then
    if hdr.ack then
      [send_tcp_packet local_port remote_port hdr.acknowledgment_number 0 rstFlag []]
    else
      let ack_num := wadd (wadd hdr.sequence_number tcp_payload.length)
        (if hdr.syn || hdr.fin then 1 else 0)
      [send_tcp_packet local_port remote_port 0 ack_num (rstFlag ||| ackFlag) []]
  else []

/-- A sequence of sends on the application channel: `life` is the number
of sends that still succeed before the receiver is dropped; returns the
chunks actually delivered, the remaining life, and whether some send
failed (the caller breaks out of its delivery loop at the first
failure). -/
def sendAll (life : Nat) : List (List Nat) → List (List Nat) × Nat × Bool
  | [] => ([], life, false)
  | d :: rest =>
    if life = 0 then ([], 0, true)
    else
      let r := sendAll (life - 1) rest
      (d :: r.1, r.2.1, r.2.2)

/-- The post-lock `match action` block of `process_tcp_packet`: emit the
decided packets, deliver payload chunks / the empty EOF marker on the
application channel, and on a failed data send mark the connection
`Closed` (only in the `SendData` and `SendMultipleData` arms).
Returns the updated TCB, the chunks delivered, and the packets emitted. -/
def executeAction (local_port remote_port now life : Nat)
    (tcb : TcpControlBlock) :
    TcpPacketAction → TcpControlBlock × List (List Nat) × List BuiltPacket
  | .SendAck seq ack =>
    (tcb, [], [send_tcp_packet local_port remote_port seq ack ackFlag []])
  | .SendFinAck seq ack =>
    let r := sendAll life [[]]
    (tcb, r.1, [send_tcp_packet local_port remote_port seq ack ackFlag []])
  | .SendData seq ack data =>
    let r := sendAll life [data]
    (if r.2.2 then { tcb with state := .Closed, last_activity := now } else tcb,
     r.1, [send_tcp_packet local_port remote_port seq ack ackFlag []])
  | .SendMultipleData seq ack data_segments =>
    let r := sendAll life data_segments
    (if r.2.2 then { tcb with state := .Closed, last_activity := now } else tcb,
     r.1, [send_tcp_packet local_port remote_port seq ack ackFlag []])
  | .SendDataThenFinAck seq ack data_segments =>
    let r := sendAll life data_segments
    let r2 := sendAll r.2.1 [[]]
    (tcb, r.1 ++ r2.1, [send_tcp_packet local_port remote_port seq ack ackFlag []])
  | .BufferedOutOfOrder seq ack =>
    (tcb, [], [send_tcp_packet local_port remote_port seq ack ackFlag []])
  | .ConnectionEstablished seq ack =>
    (tcb, [], [send_tcp_packet local_port remote_port seq ack ackFlag []])
  | .ConnectionReset => (tcb, [], [])
  | .SignalEof => (tcb, (sendAll life [[]]).1, [])
  | .None => (tcb, [], [])

/-- `process_incoming_packet` restricted to one known connection: decide
the action under the lock (`tcbStep`) and execute it after release
(`executeAction`). -/
def processStep (local_port remote_port now life : Nat) (hdr : TcpHdr)
    (tcp_payload : List Nat) (tcb : TcpControlBlock) :
    TcpControlBlock × List (List Nat) × List BuiltPacket :=
  let r := tcbStep now hdr tcp_payload tcb
  executeAction local_port remote_port now life r.1 r.2

/-- `data.chunks(1360)`: split a byte slice into consecutive chunks of at
most 1360 bytes (MSS); the empty slice yields no chunks. -/
def chunks1360 (l : List Nat) : List (List Nat) :=
  if h : l = [] then []
  else
    have hlt : (l.drop 1360).length < l.length := by
      simp only [List.length_drop]
      have := List.length_pos.mpr h
      omega
    l.take 1360 :: chunks1360 (l.drop 1360)
termination_by l.length

/-- The per-chunk loop of `tcp_send`: emit each chunk as a packet (PSH on
the last chunk) and record a retransmit segment for it, advancing the
running sequence number. -/
def sendChunks (local_port remote_port now ackN : Nat) (seq : Nat) :
    List (List Nat) → List BuiltPacket × List RetransmitSegment
  | [] => ([], [])
  | [c] =>
    ([send_tcp_packet local_port remote_port seq ackN (ackFlag ||| pshFlag) c],
     [⟨seq, c, ackFlag ||| pshFlag, now, 0⟩])
  | c :: c' :: rest =>
    let r := sendChunks local_port remote_port now ackN (wadd seq c.length) (c' :: rest)
    (send_tcp_packet local_port remote_port seq ackN ackFlag c :: r.1,
     ⟨seq, c, ackFlag, now, 0⟩ :: r.2)

/-- `VirtualStack::tcp_send` restricted to one TCB: fails with
`NotConnected` unless the state is `Established` or `CloseWait`;
otherwise updates the activity timestamp, advances `local_seq` by the
byte count, and emits/queues the MSS-sized chunks. -/
def tcp_send (local_port remote_port now : Nat) (tcb : TcpControlBlock)
    (data : List Nat) : Except Unit (TcpControlBlock × List BuiltPacket) :=
  if tcb.state ≠ TcpState.Established ∧ tcb.state ≠ TcpState.CloseWait then
    .error ()
  else
    let seq0 := tcb.local_seq
    let ackN := tcb.local_ack
    let tcb1 := { tcb with
      last_activity := now
      local_seq := wadd tcb.local_seq data.length }
    let r := sendChunks local_port remote_port now ackN seq0 (chunks1360 data)
    .ok ({ tcb1 with retransmit_queue := tcb1.retransmit_queue ++ r.2 }, r.1)

/-- `VirtualStack::tcp_close` restricted to one TCB: clear the retransmit
queue; from `Established` go to `FinWait1` and emit FIN-ACK, from
`CloseWait` go to `LastAck` and emit FIN-ACK, otherwise no-op. -/
def tcp_close (local_port remote_port : Nat) (tcb : TcpControlBlock) :
    TcpControlBlock × List BuiltPacket :=
  let tcb1 := { tcb with retransmit_queue := [] }
  match tcb1.state with
  | .Established =>
    let t := { tcb1 with state := .FinWait1 }
    (t, [send_tcp_packet local_port remote_port t.local_seq t.local_ack
          (finFlag ||| ackFlag) []])
  | .CloseWait =>
    let t := { tcb1 with state := .LastAck }
    (t, [send_tcp_packet local_port remote_port t.local_seq t.local_ack
          (finFlag ||| ackFlag) []])
  | _ => (tcb1, [])

/-- `max_rto` in `check_retransmissions`: 8 seconds (in ms). -/
def max_rto : Nat := 8000

/-- The `for seg in tcb.retransmit_queue.iter_mut()` loop of
`check_retransmissions` for one connection: walk the queue from the head;
an expired segment whose `retransmit_count` has reached 8 is skipped
(`continue`); the first expired segment below the limit is re-emitted,
stamped and backs off the RTO, and the loop then stops (`break`); a
non-expired segment stops the loop immediately. Returns the
`(seq, data, flags)` entries pushed to `to_retransmit`, the updated queue
and the updated RTO. -/
def sweepQueue (now rto : Nat) :
    List RetransmitSegment → List (Nat × List Nat × Nat) × List RetransmitSegment × Nat
  | [] => ([], [], rto)
  | seg :: rest =>
    if rto ≤ now - seg.sent_at then
      if 8 ≤ seg.retransmit_count then
        let r := sweepQueue now rto rest
        (r.1, seg :: r.2.1, r.2.2)
      else
        ([(seg.seq, seg.data, seg.flags)],
         { seg with retransmit_count := seg.retransmit_count + 1, sent_at := now } :: rest,
         min (rto * 2) max_rto)
    else ([], seg :: rest, rto)

/-- `VirtualStack::check_retransmissions` restricted to one TCB: only
connections in `Established` or `CloseWait` are considered; returns the
updated TCB and the list of `(seq, data, flags)` segments re-emitted. -/
def check_retransmissions (now : Nat) (tcb : TcpControlBlock) :
    TcpControlBlock × List (Nat × List Nat × Nat) :=
  if tcb.state ≠ TcpState.Established ∧ tcb.state ≠ TcpState.CloseWait then
    (tcb, [])
  else
    let r := sweepQueue now tcb.rto tcb.retransmit_queue
    ({ tcb with retransmit_queue := r.2.1, rto := r.2.2 }, r.1)

/-- The TCB inserted by `VirtualStack::tcp_connect` (state `SynSent`,
`local_seq = snd_una = initial_seq`, empty buffers, 1 MiB reorder budget,
500 ms initial RTO). -/
def tcp_connect_tcb (initial_seq now : Nat) : TcpControlBlock :=
  { state := .SynSent
    local_seq := initial_seq
    initial_seq := initial_seq
    local_ack := 0
    snd_una := initial_seq
    created_at := now
    last_activity := now
    reorder_buffer := []
    max_reorder_buffer_bytes := 1048576
    reorder_buffer_bytes := 0
    pending_fin_seq := none
    retransmit_queue := []
    rto := 500 }

/-! ### Concrete fixtures used by witnesses and counterexamples -/

/-- A sample TCB of an established connection (as reached after a
completed handshake), used as a concrete test vehicle. -/
def estTcb : TcpControlBlock :=
  { state := .Established
    local_seq := 5000
    initial_seq := 4000
    local_ack := 1000
    snd_una := 5000
    created_at := 0
    last_activity := 0
    reorder_buffer := []
    max_reorder_buffer_bytes := 1048576
    reorder_buffer_bytes := 0
    pending_fin_seq := none
    retransmit_queue := []
    rto := 500 }

/-- A plain inbound data-segment header (no flags but the given sequence
number), used as a concrete test vehicle. -/
def mkDataHdr (seq : Nat) : TcpHdr :=
  { source_port := 80
    destination_port := 49152
    sequence_number := seq
    acknowledgment_number := 0
    syn := false
    ack := false
    fin := false
    rst := false
    psh := false }

/-! ### C7: the port allocator -/

/-- Closed form of the port counter: the allocator cycles through the
15849 values 49152, 49153, …, 65000 and then wraps back to 49152. -/
theorem portCounter_closed (n : Nat) : portCounter n = 49152 + n % 15849 := by
  induction n with
  | zero => rfl
  | succ n ih =>
    simp only [portCounter, allocate_port, ih]
    have h1 : n % 15849 < 15849 := Nat.mod_lt _ (by omega)
    by_cases hc : n % 15849 = 15848
    · rw [if_pos (by omega)]
      omega
    · rw [if_neg (by omega), Nat.mod_eq_of_lt (by omega)]
      omega

/-- `portAt` returns the counter value it read. -/
theorem portAt_eq (n : Nat) : portAt n = portCounter n := rfl

/-- C7 counterexample: the 15849-th allocation (index 15848) returns the
port 65000 itself before the counter wraps, so the allocator does return
a port `≥ 65000`, contradicting the claimed range `[49152, 65000)`. -/
theorem c7_counterexample : portAt 15848 = 65000 ∧ ¬ portAt 15848 < 65000 := by
  have h : portAt 15848 = 65000 := by
    rw [portAt_eq, portCounter_closed]
  exact ⟨h, by omega⟩

/-- C7 (amended): under sequential allocation every returned port equals
`49152 + n % 15849`, hence lies in the inclusive range `[49152, 65000]`;
ports increase by one per allocation until 65000 is returned, after which
the allocator wraps back to 49152.  (The original claim's exclusive upper
bound 65000 is wrong: 65000 itself is returned once per cycle.) -/
theorem c7_port_allocator_range (n : Nat) :
    portAt n = 49152 + n % 15849 ∧ 49152 ≤ portAt n ∧ portAt n ≤ 65000 := by
  have h : portAt n = 49152 + n % 15849 := by rw [portAt_eq, portCounter_closed]
  refine ⟨h, ?_, ?_⟩ <;> rw [h] <;> have := Nat.mod_lt n (show 0 < 15849 by omega) <;> omega

/-! ### C8: the SYN option block -/

/-- C8: every packet built by `send_tcp_packet` with the SYN flag set
carries exactly the 8-byte option block `[02 04 05 50 01 03 03 07]`
(MSS=1360 as kind 2 length 4 big-endian, one NOP, window-scale shift 7 as
kind 3 length 3); a packet built without SYN carries no options. -/
theorem c8_syn_option_block (lp rp seq ackN flags : Nat) (payload : List Nat) :
    (flags &&& synFlag ≠ 0 →
      (send_tcp_packet lp rp seq ackN flags payload).options
        = [2, 4, 5, 80, 1, 3, 3, 7]) ∧
    (flags &&& synFlag = 0 →
      (send_tcp_packet lp rp seq ackN flags payload).options = []) := by
  constructor
  · intro h
    simp [send_tcp_packet, TCP_WINDOW_SCALE_SHIFT, h]
    decide
  · intro h
    simp [send_tcp_packet, h]

/-- Witness for C8 at concrete inputs: a SYN packet gets the fixed block,
a plain ACK packet gets none. -/
theorem c8_syn_option_block_witness :
    (send_tcp_packet 49152 80 1000 0 synFlag []).options = [2, 4, 5, 80, 1, 3, 3, 7] ∧
    (send_tcp_packet 49152 80 1000 0 ackFlag []).options = [] :=
  ⟨(c8_syn_option_block 49152 80 1000 0 synFlag []).1 (by decide),
   (c8_syn_option_block 49152 80 1000 0 ackFlag []).2 (by decide)⟩

/-! ### C6: RST synthesis for unknown connections -/

/-- C6: for an inbound packet whose 4-tuple is absent from the connection
table: an RST provokes no emission; a packet with ACK provokes exactly one
RST (no ACK flag) with `seq` = the incoming acknowledgment number and
`ack` = 0; a packet without ACK provokes exactly one RST+ACK with
`seq` = 0 and `ack` = incoming seq + payload length (+1 when SYN or FIN is
set), with empty payload and no options in both cases. -/
theorem c6_orphan_rst (lp rp : Nat) (hdr : TcpHdr) (tcp_payload : List Nat) :
    (hdr.rst = true → orphanPackets lp rp hdr tcp_payload = []) ∧
    (hdr.rst = false → hdr.ack = true →
      ∃ p, orphanPackets lp rp hdr tcp_payload = [p] ∧
        p.rst = true ∧ p.ack = false ∧ p.syn = false ∧ p.fin = false ∧
        p.seq = hdr.acknowledgment_number ∧ p.ackNum = 0 ∧
        p.payload = [] ∧ p.options = []) ∧
    (hdr.rst = false → hdr.ack = false →
      ∃ p, orphanPackets lp rp hdr tcp_payload = [p] ∧
        p.rst = true ∧ p.ack = true ∧ p.syn = false ∧ p.fin = false ∧
        p.seq = 0 ∧
        p.ackNum = wadd (wadd hdr.sequence_number tcp_payload.length)
          (if hdr.syn || hdr.fin then 1 else 0) ∧
        p.payload = [] ∧ p.options = []) := by
  refine ⟨?_, ?_, ?_⟩
  · intro h
    simp [orphanPackets, h]
  · intro h1 h2
    refine ⟨send_tcp_packet lp rp hdr.acknowledgment_number 0 rstFlag [], ?_,
      rfl, rfl, rfl, rfl, rfl, rfl, rfl, rfl⟩
    simp [orphanPackets, h1, h2]
  · intro h1 h2
    refine ⟨send_tcp_packet lp rp 0
        (wadd (wadd hdr.sequence_number tcp_payload.length)
          (if hdr.syn || hdr.fin then 1 else 0)) (rstFlag ||| ackFlag) [], ?_,
      rfl, rfl, rfl, rfl, rfl, rfl, rfl, rfl⟩
    simp [orphanPackets, h1, h2]

/-- Witness for C6 at concrete inputs: an orphan RST is ignored, an orphan
ACK provokes the RST echoing its ack number, an orphan SYN provokes the
RST+ACK acknowledging seq+1. -/
theorem c6_orphan_rst_witness :
    (orphanPackets 49152 80 { mkDataHdr 9000 with rst := true } [] = []) ∧
    (∃ p, orphanPackets 49152 80
        { mkDataHdr 9000 with ack := true, acknowledgment_number := 42 } [] = [p] ∧
        p.rst = true ∧ p.ack = false ∧ p.syn = false ∧ p.fin = false ∧
        p.seq = 42 ∧ p.ackNum = 0 ∧ p.payload = [] ∧ p.options = []) := by
  constructor
  · exact (c6_orphan_rst 49152 80 { mkDataHdr 9000 with rst := true } []).1 rfl
  · have h := (c6_orphan_rst 49152 80
      { mkDataHdr 9000 with ack := true, acknowledgment_number := 42 } []).2.1 rfl rfl
    exact h

/-! ### C10: `tcp_send` with an empty byte slice -/

/-- `chunks1360` of the empty slice yields no chunks. -/
theorem chunks1360_nil : chunks1360 [] = [] := by
  rw [chunks1360]
  simp

/-- Every chunk produced by `chunks1360` is nonempty. -/
theorem chunks1360_ne_nil (l : List Nat) : ∀ c ∈ chunks1360 l, c ≠ [] := by
  induction l using chunks1360.induct with
  | case1 => simp [chunks1360_nil]
  | case2 l h hlt ih =>
    rw [chunks1360, dif_neg h]
    intro c hc
    rcases List.mem_cons.mp hc with rfl | hmem
    · intro habs
      rcases List.take_eq_nil_iff.mp habs with h' | h' <;> simp_all
    · exact ih c hmem

/-- The payloads of the packets emitted by `sendChunks` are exactly the
given chunks. -/
theorem sendChunks_payloads (lp rp now ackN : Nat) :
    ∀ (cs : List (List Nat)) (seq : Nat),
      ((sendChunks lp rp now ackN seq cs).1.map (fun p => p.payload)) = cs
  | [], _ => rfl
  | [c], seq => by simp [sendChunks, send_tcp_packet]
  | c :: c' :: rest, seq => by
    simp only [sendChunks, List.map_cons, send_tcp_packet]
    exact congrArg _ (sendChunks_payloads lp rp now ackN (c' :: rest) (wadd seq c.length))

/-- C10: calling `tcp_send` with an empty byte slice on a connection in
state `Established` or `CloseWait` returns `Ok`, emits no packets, appends
nothing to the retransmit queue and leaves `local_seq`, `local_ack` and
`snd_una` unchanged (only `last_activity` is updated); moreover, for any
input, every packet `tcp_send` emits has a nonempty payload, so no
zero-length segment is ever emitted. -/
theorem c10_tcp_send_empty (lp rp now : Nat) (tcb : TcpControlBlock)
    (hseq : tcb.local_seq < M32)
    (hstate : tcb.state = TcpState.Established ∨ tcb.state = TcpState.CloseWait) :
    tcp_send lp rp now tcb [] = .ok ({ tcb with last_activity := now }, []) ∧
    ∀ (data : List Nat) (tcb' : TcpControlBlock) (pkts : List BuiltPacket),
      tcp_send lp rp now tcb data = .ok (tcb', pkts) →
      ∀ p ∈ pkts, p.payload ≠ [] := by
  have hcond : ¬(tcb.state ≠ TcpState.Established ∧ tcb.state ≠ TcpState.CloseWait) := by
    rcases hstate with h | h <;> simp [h]
  constructor
  · simp only [tcp_send, if_neg hcond, chunks1360_nil, sendChunks, List.length_nil,
      List.append_nil]
    have : wadd tcb.local_seq 0 = tcb.local_seq := by
      simp [wadd, Nat.mod_eq_of_lt hseq]
    rw [this]
  · intro data tcb' pkts hsend p hp
    simp only [tcp_send, if_neg hcond, Except.ok.injEq, Prod.mk.injEq] at hsend
    have hpay : p.payload ∈ pkts.map (fun q => q.payload) := List.mem_map_of_mem _ hp
    rw [← hsend.2, sendChunks_payloads] at hpay
    exact chunks1360_ne_nil data _ hpay

/-- Witness for C10 at a concrete established TCB. -/
theorem c10_tcp_send_empty_witness :
    tcp_send 49152 80 5 estTcb [] = .ok ({ estTcb with last_activity := 5 }, []) :=
  (c10_tcp_send_empty 49152 80 5 estTcb (by decide) (Or.inl rfl)).1

/-! ### C2: the retransmission sweep -/

/-- An established TCB whose retransmit queue holds an expired, exhausted
head segment (`retransmit_count = 8`) followed by an expired segment that
has never been retransmitted. -/
def c2tcb : TcpControlBlock :=
  { estTcb with retransmit_queue :=
      [⟨5000, [1, 1, 1, 1, 1], 16, 0, 8⟩, ⟨5005, [2, 2, 2, 2, 2], 16, 0, 0⟩] }

/-- C2 failing-input evaluation: at time 1000 ms with RTO 500 ms, the head
segment (seq 5000) is expired and exhausted, yet `check_retransmissions`
does not stop at it: the `continue` in the sweep moves past the head and
re-emits the *second* segment (seq 5005), contradicting both the claim and
the code's own go-back-N comment. -/
theorem c2_sweep_passes_exhausted_head :
    (check_retransmissions 1000 c2tcb).2 = [(5005, [2, 2, 2, 2, 2], 16)] ∧
    c2tcb.retransmit_queue.map (fun s => s.seq) = [5000, 5005] ∧
    (check_retransmissions 1000 c2tcb).1.retransmit_queue.map
      (fun s => (s.seq, s.retransmit_count, s.sent_at)) = [(5000, 8, 0), (5005, 1, 1000)] := by
  decide

/-! ### C3: reorder-buffer byte accounting -/

/-- The actual number of payload bytes stored in the reorder buffer. -/
def reorderBytesSum (buf : List (Nat × List Nat)) : Nat :=
  (buf.map (fun kv => kv.2.length)).sum

/-- The TCB after the same 10-byte out-of-order segment (seq 2000, ahead
of `local_ack = 1000`) has been processed twice on `estTcb`. -/
def c3tcb : TcpControlBlock :=
  (processStep 49152 80 2 16 (mkDataHdr 2000) [65, 65, 65, 65, 65, 65, 65, 65, 65, 65]
    (processStep 49152 80 1 16 (mkDataHdr 2000) [65, 65, 65, 65, 65, 65, 65, 65, 65, 65]
      estTcb).1).1

/-- C3 failing-input evaluation: after an out-of-order segment whose
sequence number equals the key of an already-buffered segment is processed,
`BTreeMap::insert` replaces the old value but the code adds the new length
to `reorder_buffer_bytes` without subtracting the replaced one:
the counter reads 20 while the buffer actually stores 10 bytes, so
`reorder_buffer_bytes = Σ len(v)` is violated. -/
theorem c3_duplicate_insert_double_counts :
    c3tcb.reorder_buffer_bytes = 20 ∧
    reorderBytesSum c3tcb.reorder_buffer = 10 ∧
    c3tcb.reorder_buffer = [(2000, [65, 65, 65, 65, 65, 65, 65, 65, 65, 65])] := by
  decide

/-! ### Frame lemmas for the ACK processing and action execution -/

/-- `establishedAckProcess` leaves `local_ack` unchanged. -/
theorem eap_local_ack (hdr : TcpHdr) (t : TcpControlBlock) :
    (establishedAckProcess hdr t).local_ack = t.local_ack := by
  unfold establishedAckProcess
  split
  · dsimp only
    split <;> rfl
  · rfl

/-- `establishedAckProcess` leaves the reorder buffer unchanged. -/
theorem eap_reorder_buffer (hdr : TcpHdr) (t : TcpControlBlock) :
    (establishedAckProcess hdr t).reorder_buffer = t.reorder_buffer := by
  unfold establishedAckProcess
  split
  · dsimp only
    split <;> rfl
  · rfl

/-- `establishedAckProcess` leaves `reorder_buffer_bytes` unchanged. -/
theorem eap_reorder_bytes (hdr : TcpHdr) (t : TcpControlBlock) :
    (establishedAckProcess hdr t).reorder_buffer_bytes = t.reorder_buffer_bytes := by
  unfold establishedAckProcess
  split
  · dsimp only
    split <;> rfl
  · rfl

/-- `establishedAckProcess` leaves `pending_fin_seq` unchanged. -/
theorem eap_pending (hdr : TcpHdr) (t : TcpControlBlock) :
    (establishedAckProcess hdr t).pending_fin_seq = t.pending_fin_seq := by
  unfold establishedAckProcess
  split
  · dsimp only
    split <;> rfl
  · rfl

/-- `establishedAckProcess` leaves the connection state unchanged. -/
theorem eap_state (hdr : TcpHdr) (t : TcpControlBlock) :
    (establishedAckProcess hdr t).state = t.state := by
  unfold establishedAckProcess
  split
  · dsimp only
    split <;> rfl
  · rfl

/-- `establishedAckProcess` leaves `local_seq` unchanged. -/
theorem eap_local_seq (hdr : TcpHdr) (t : TcpControlBlock) :
    (establishedAckProcess hdr t).local_seq = t.local_seq := by
  unfold establishedAckProcess
  split
  · dsimp only
    split <;> rfl
  · rfl

/-- `establishedAckProcess` leaves `max_reorder_buffer_bytes` unchanged. -/
theorem eap_max_bytes (hdr : TcpHdr) (t : TcpControlBlock) :
    (establishedAckProcess hdr t).max_reorder_buffer_bytes = t.max_reorder_buffer_bytes := by
  unfold establishedAckProcess
  split
  · dsimp only
    split <;> rfl
  · rfl

/-- Executing an action never changes the reorder buffer. -/
theorem executeAction_reorder_buffer (lp rp now life : Nat) (t : TcpControlBlock)
    (a : TcpPacketAction) :
    (executeAction lp rp now life t a).1.reorder_buffer = t.reorder_buffer := by
  cases a <;> first
    | rfl
    | (simp only [executeAction]; split <;> rfl)

/-- Executing an action never changes `local_ack`. -/
theorem executeAction_local_ack (lp rp now life : Nat) (t : TcpControlBlock)
    (a : TcpPacketAction) :
    (executeAction lp rp now life t a).1.local_ack = t.local_ack := by
  cases a <;> first
    | rfl
    | (simp only [executeAction]; split <;> rfl)

/-! ### C5: reorder-buffer keys vs `local_ack` -/

/-- The TCB after feeding `estTcb` (whose `local_ack` is 1000) an
out-of-order one-byte segment at seq 1001 and then an empty in-order FIN
at seq 1000. -/
def c5tcb : TcpControlBlock :=
  (processStep 49152 80 2 16 { mkDataHdr 1000 with fin := true } []
    (processStep 49152 80 1 16 (mkDataHdr 1001) [7] estTcb).1).1

/-- C5 counterexample: after the in-order FIN is handled, `local_ack`
jumps to `fin_seq + 1 = 1001`, which equals the key of the segment
buffered at 1001 — a reorder-buffer key equal to `local_ack` survives
`process_incoming_packet`, contradicting the claim. -/
theorem c5_counterexample :
    c5tcb.reorder_buffer = [(1001, [7])] ∧ c5tcb.local_ack = 1001 ∧
    c5tcb.reorder_buffer.any (fun kv => kv.1 == c5tcb.local_ack) = true := by
  decide

/-- The flush loop stops only when the buffer is empty or its smallest key
differs from the final `local_ack`. -/
theorem flushLoop_head_ne (buf : List (Nat × List Nat)) :
    ∀ la bytes k v, (flushLoop buf la bytes).buf.head? = some (k, v) →
      k ≠ (flushLoop buf la bytes).la := by
  induction buf with
  | nil =>
    intro la bytes k v h
    simp [flushLoop] at h
  | cons kv rest ih =>
    intro la bytes k v h
    obtain ⟨k0, v0⟩ := kv
    by_cases hk : k0 = la
    · simp only [flushLoop, if_pos hk] at h ⊢
      exact ih _ _ _ _ h
    · simp only [flushLoop, if_neg hk, List.head?_cons, Option.some.injEq,
        Prod.mk.injEq] at h ⊢
      rw [← h.1]
      exact hk

/-- C5 (amended): after `process_incoming_packet` handles an in-order
*data* segment in state `Established` (payload nonempty, no FIN, no RST)
on a connection with no pending out-of-order FIN, the smallest key of the
reorder buffer differs from `local_ack` (the contiguous prefix is flushed).
In general a buffered key can equal `local_ack` — the FIN paths and a
pending-FIN completion move `local_ack` to `fin_seq + 1` without
re-checking the buffer, and keys across the `2^32` wrap are ordered
before `local_ack` — which is what the counterexample exhibits. -/
theorem c5_flush_leaves_no_smallest_key (now : Nat) (hdr : TcpHdr)
    (tcp_payload : List Nat) (tcb : TcpControlBlock) (life lp rp : Nat)
    (hstate : tcb.state = TcpState.Established)
    (hfin : hdr.fin = false) (hrst : hdr.rst = false)
    (hp : tcp_payload ≠ [])
    (hpend : tcb.pending_fin_seq = none)
    (hio : wsub hdr.sequence_number tcb.local_ack = 0) :
    ∀ k v,
      (processStep lp rp now life hdr tcp_payload tcb).1.reorder_buffer.head? = some (k, v) →
      k ≠ (processStep lp rp now life hdr tcp_payload tcb).1.local_ack := by
  intro k v h
  simp only [processStep] at h ⊢
  rw [executeAction_reorder_buffer] at h
  rw [executeAction_local_ack]
  have hH : ¬ (H32 ≤ 0) := by decide
  obtain ⟨la0, bytes0, hb, hl⟩ : ∃ la0 bytes0,
      (tcbStep now hdr tcp_payload tcb).1.reorder_buffer
        = (flushLoop tcb.reorder_buffer la0 bytes0).buf ∧
      (tcbStep now hdr tcp_payload tcb).1.local_ack
        = (flushLoop tcb.reorder_buffer la0 bytes0).la := by
    refine ⟨wadd hdr.sequence_number tcp_payload.length,
            tcb.reorder_buffer_bytes, ?_, ?_⟩ <;>
      simp only [tcbStep, hstate, establishedStep, hrst, hfin, Bool.false_eq_true,
        if_false, if_pos hp, eap_local_ack, eap_pending, eap_reorder_buffer,
        eap_reorder_bytes, hio, hpend, if_neg hH, if_pos rfl, if_true] <;>
      (split <;> rfl)
  rw [hb] at h
  rw [hl]
  exact flushLoop_head_ne _ _ _ _ _ h

/-- An established TCB holding one out-of-order segment at 1010, two
bytes, ahead of `local_ack = 1000`. -/
def c5wTcb : TcpControlBlock :=
  { estTcb with reorder_buffer := [(1010, [9, 9])], reorder_buffer_bytes := 2 }

/-- Witness for the amended C5 at a concrete input: an in-order 3-byte
segment at `c5wTcb`'s `local_ack` of 1000 leaves the buffered segment at
1010 as the smallest key, and that key differs from the new `local_ack`. -/
theorem c5_flush_leaves_no_smallest_key_witness :
    (processStep 49152 80 3 16 (mkDataHdr 1000) [1, 2, 3] c5wTcb).1.reorder_buffer.head?
      = some (1010, [9, 9]) ∧
    (1010 : Nat) ≠ (processStep 49152 80 3 16 (mkDataHdr 1000) [1, 2, 3] c5wTcb).1.local_ack :=
  ⟨by decide,
   c5_flush_leaves_no_smallest_key 3 (mkDataHdr 1000) [1, 2, 3] c5wTcb 16 49152 80
     rfl rfl rfl (by decide) rfl (by decide) 1010 [9, 9] (by decide)⟩

/-! ### C9: delivery abort on channel disconnect -/

/-- When the receiver is dropped before all chunks fit (`life` sends still
succeed but more are attempted), `sendAll` delivers exactly the first
`life` chunks, reports the failure, and no life remains. -/
theorem sendAll_short (segs : List (List Nat)) :
    ∀ life, life < segs.length → sendAll life segs = (segs.take life, 0, true) := by
  induction segs with
  | nil =>
    intro life h
    simp at h
  | cons d rest ih =>
    intro life h
    by_cases h0 : life = 0
    · subst h0
      simp [sendAll]
    · obtain ⟨l, rfl⟩ : ∃ l, life = l + 1 := ⟨life - 1, by omega⟩
      simp only [sendAll, if_neg h0, Nat.add_sub_cancel]
      rw [ih l (by simpa using h)]
      simp [List.take_succ_cons]

/-- C9 counterexample: executing `SendDataThenFinAck` with the receiver
already dropped (0 sends succeed, 2 segments pending) delivers nothing —
the sends fail — yet the TCB is left in `CloseWait`, not `Closed`: the
`SendDataThenFinAck` arm has no disconnect handling, contradicting the
claim for the FIN variant of multi-segment delivery. -/
theorem c9_counterexample :
    (executeAction 49152 80 7 0 { estTcb with state := TcpState.CloseWait }
        (.SendDataThenFinAck 5000 1010 [[1], [2]])).2.1 = [] ∧
    (executeAction 49152 80 7 0 { estTcb with state := TcpState.CloseWait }
        (.SendDataThenFinAck 5000 1010 [[1], [2]])).1.state = TcpState.CloseWait ∧
    TcpState.CloseWait ≠ TcpState.Closed := by
  decide

/-- C9 (amended): when a channel send fails during a multi-segment
delivery (fewer successful sends remain than segments), the remaining
segments are not delivered in either arm — exactly the first `life`
chunks reach the application; in the plain `SendMultipleData` arm the
connection is additionally marked `Closed`, but in the
`SendDataThenFinAck` arm (delivery followed by FIN acknowledgment and
EOF) the TCB is left entirely unchanged, so the state stays whatever it
was (`CloseWait` after an in-order FIN). -/
theorem c9_disconnect_aborts_delivery (lp rp now life : Nat)
    (tcb : TcpControlBlock) (seq ack : Nat) (segs : List (List Nat))
    (h : life < segs.length) :
    ((executeAction lp rp now life tcb (.SendMultipleData seq ack segs)).1.state
        = TcpState.Closed ∧
     (executeAction lp rp now life tcb (.SendMultipleData seq ack segs)).2.1
        = segs.take life) ∧
    ((executeAction lp rp now life tcb (.SendDataThenFinAck seq ack segs)).1 = tcb ∧
     (executeAction lp rp now life tcb (.SendDataThenFinAck seq ack segs)).2.1
        = segs.take life) := by
  simp [executeAction, sendAll_short segs life h, sendAll]

/-- Witness for the amended C9 at a concrete input: two pending segments,
receiver already dropped. -/
theorem c9_disconnect_aborts_delivery_witness :
    ((executeAction 49152 80 7 0 estTcb (.SendMultipleData 5000 1010 [[1], [2]])).1.state
        = TcpState.Closed ∧
     (executeAction 49152 80 7 0 estTcb (.SendMultipleData 5000 1010 [[1], [2]])).2.1 = []) ∧
    ((executeAction 49152 80 7 0 estTcb (.SendDataThenFinAck 5000 1010 [[1], [2]])).1
        = estTcb ∧
     (executeAction 49152 80 7 0 estTcb (.SendDataThenFinAck 5000 1010 [[1], [2]])).2.1
        = []) :=
  c9_disconnect_aborts_delivery 49152 80 7 0 estTcb 5000 1010 [[1], [2]] (by decide)

/-! ### C4: sequence-number invariants along operation traces -/

/-- `wadd` stays below `2^32`. -/
theorem wadd_lt (a b : Nat) : wadd a b < M32 :=
  Nat.mod_lt _ (by simp [M32])

/-- `wsub` stays below `2^32`. -/
theorem wsub_lt (a b : Nat) : wsub a b < M32 :=
  Nat.mod_lt _ (by simp [M32])

/-- `wsub x x = 0`. -/
theorem wsub_self (x : Nat) : wsub x x = 0 := by
  simp [wsub]

/-- Adding `c` to a `u32` advances the modular offset from any anchor by
`c` (mod `2^32`). -/
theorem wsub_wadd_left (x y c : Nat) (hx : x < M32) (_hy : y < M32) :
    wsub (wadd x c) y = (wsub x y + c) % M32 := by
  simp only [wsub, wadd, M32] at *
  omega

/-- Difference of modular offsets from a common anchor: when `y` is at or
before `z` as seen from `x`, the offset of `z` from `y` is the difference
of their offsets from `x`. -/
theorem wsub_sub (x y z : Nat) (hx : x < M32) (_hy : y < M32) (_hz : z < M32)
    (h : wsub y x ≤ wsub z x) : wsub z y = wsub z x - wsub y x := by
  simp only [wsub, M32] at *
  omega

/-- The pop condition of `popAcked` (`(end - snd_una') as i32 ≤ 0`) holds
exactly for segments whose end offset from the old anchor is at most the
ACK's offset, provided both offsets are in the positive signed half. -/
theorem popCond_iff (u ack x : Nat) (hu : u < M32) (_ha : ack < M32) (_hx : x < M32)
    (hex : wsub x u < H32) (hau : wsub ack u < H32) :
    (wsub x ack = 0 ∨ H32 ≤ wsub x ack) ↔ wsub x u ≤ wsub ack u := by
  simp only [wsub, M32, H32] at *
  omega

/-- The end sequence number of a retransmit segment (`seq + len`). -/
def segEnd (seg : RetransmitSegment) : Nat := wadd seg.seq seg.data.length

/-- The modular offset of a segment's end from `snd_una`. -/
def endOff (una : Nat) (seg : RetransmitSegment) : Nat := wsub (segEnd seg) una

/-- The per-TCB invariant of §8 of the spec, in its amended form: all
sequence bookkeeping stays inside a signed window (`snd_una ≤ local_seq`
in signed-modular terms), a TCB in `SynSent` has an empty retransmit
queue, and every queued segment *ends* inside `(snd_una, local_seq]`,
with ends strictly increasing along the queue. -/
def tcbInv (tcb : TcpControlBlock) : Prop :=
  tcb.local_seq < M32 ∧
  tcb.snd_una < M32 ∧
  wsub tcb.local_seq tcb.snd_una < H32 ∧
  (tcb.state = TcpState.SynSent → tcb.retransmit_queue = []) ∧
  (∀ seg ∈ tcb.retransmit_queue,
      0 < endOff tcb.snd_una seg ∧
      endOff tcb.snd_una seg ≤ wsub tcb.local_seq tcb.snd_una) ∧
  (tcb.retransmit_queue.map (endOff tcb.snd_una)).Pairwise (fun a b => a < b)

/-- One public operation applied to a single connection's TCB: `tcp_send`,
`tcp_close`, `process_incoming_packet` (with the channel's remaining
`life`), or `check_retransmissions`. -/
inductive StackOp where
  | send (now : Nat) (data : List Nat)
  | close
  | packet (now life : Nat) (hdr : TcpHdr) (tcp_payload : List Nat)
  | retrans (now : Nat)

/-- Apply one operation to a TCB (a failed `tcp_send` leaves it
unchanged). -/
def applyOp (lp rp : Nat) (tcb : TcpControlBlock) : StackOp → TcpControlBlock
  | .send now data =>
    match tcp_send lp rp now tcb data with
    | .ok r => r.1
    | .error _ => tcb
  | .close => (tcp_close lp rp tcb).1
  | .packet now life hdr tcp_payload => (processStep lp rp now life hdr tcp_payload tcb).1
  | .retrans now => (check_retransmissions now tcb).1

/-- Apply a sequence of operations. -/
def applyOps (lp rp : Nat) (tcb : TcpControlBlock) : List StackOp → TcpControlBlock
  | [] => tcb
  | op :: rest => applyOps lp rp (applyOp lp rp tcb op) rest

/-- Validity side conditions on a single operation: a send keeps the
outstanding window below `2^31` bytes, and an inbound packet carries
in-range header fields whose ACK number (when it advances `snd_una` of an
established connection) acknowledges only data actually sent, i.e. stays
at or below `local_seq`. -/
def validOp (tcb : TcpControlBlock) : StackOp → Prop
  | .send _ data => wsub tcb.local_seq tcb.snd_una + data.length < H32
  | .packet _ _ hdr _ =>
      hdr.sequence_number < M32 ∧ hdr.acknowledgment_number < M32 ∧
      (tcb.state = TcpState.Established → hdr.ack = true →
        0 < wsub hdr.acknowledgment_number tcb.snd_una →
        wsub hdr.acknowledgment_number tcb.snd_una < H32 →
        wsub hdr.acknowledgment_number tcb.snd_una ≤ wsub tcb.local_seq tcb.snd_una)
  | _ => True

/-- A trace of operations each valid in the state it is applied to. -/
def validTrace (lp rp : Nat) (tcb : TcpControlBlock) : List StackOp → Prop
  | [] => True
  | op :: rest => validOp tcb op ∧ validTrace lp rp (applyOp lp rp tcb op) rest

/-- The invariant only looks at `local_seq`, `snd_una`, the retransmit
queue and the state, so it transfers along any update that preserves the
first three and cannot enter `SynSent` with a nonempty queue. -/
theorem tcbInv_transfer (t t' : TcpControlBlock) (h : tcbInv t)
    (hls : t'.local_seq = t.local_seq) (hu : t'.snd_una = t.snd_una)
    (hq : t'.retransmit_queue = t.retransmit_queue ∨ t'.retransmit_queue = [])
    (hs : t'.state = TcpState.SynSent → t'.retransmit_queue = []) :
    tcbInv t' := by
  obtain ⟨h1, h2, h3, _h4, h5, h6⟩ := h
  refine ⟨?_, ?_, ?_, hs, ?_, ?_⟩
  · rw [hls]; exact h1
  · rw [hu]; exact h2
  · rw [hls, hu]; exact h3
  · rcases hq with hq | hq
    · rw [hq, hu, hls]; exact h5
    · rw [hq]; simp
  · rcases hq with hq | hq
    · rw [hq, hu]; exact h6
    · rw [hq]; simp

/-- `popAcked` spec: popping the head segments acknowledged by a valid
forward ACK preserves the queue bounds and ordering, now anchored at the
new `snd_una`. -/
theorem popAcked_spec (una ack ls : Nat) (hu : una < M32) (ha : ack < M32)
    (hls : ls < M32)
    (_hpos : 0 < wsub ack una) (hlt : wsub ack una < H32)
    (hle : wsub ack una ≤ wsub ls una) (hD : wsub ls una < H32) :
    ∀ q : List RetransmitSegment,
      (∀ seg ∈ q, 0 < endOff una seg ∧ endOff una seg ≤ wsub ls una) →
      (q.map (endOff una)).Pairwise (fun a b => a < b) →
      (∀ seg ∈ popAcked ack q,
          0 < endOff ack seg ∧ endOff ack seg ≤ wsub ls ack) ∧
      ((popAcked ack q).map (endOff ack)).Pairwise (fun a b => a < b) := by
  intro q
  induction q with
  | nil =>
    intro _ _
    exact ⟨by simp [popAcked], by simp [popAcked]⟩
  | cons seg rest ih =>
    intro hb hp
    have hbseg := hb seg (List.mem_cons_self _ _)
    have hbrest : ∀ s ∈ rest, 0 < endOff una s ∧ endOff una s ≤ wsub ls una :=
      fun s hs => hb s (List.mem_cons_of_mem _ hs)
    have hptail : (rest.map (endOff una)).Pairwise (fun a b => a < b) :=
      (List.pairwise_cons.mp (by simpa using hp)).2
    have hphead : ∀ s ∈ rest, endOff una seg < endOff una s := by
      intro s hs
      have := (List.pairwise_cons.mp (by simpa using hp)).1 (endOff una s)
        (List.mem_map_of_mem _ hs)
      exact this
    have hend : segEnd seg < M32 := wadd_lt _ _
    have hcond : (wsub (segEnd seg) ack = 0 ∨ H32 ≤ wsub (segEnd seg) ack) ↔
        endOff una seg ≤ wsub ack una := by
      have := popCond_iff una ack (segEnd seg) hu ha hend
        (lt_of_le_of_lt hbseg.2 hD) hlt
      simpa [endOff] using this
    by_cases hc : endOff una seg ≤ wsub ack una
    · -- head is fully acknowledged: popped, recurse
      have : popAcked ack (seg :: rest) = popAcked ack rest := by
        simp only [popAcked]
        rw [if_pos]
        exact hcond.mpr hc
      rw [this]
      exact ih hbrest hptail
    · -- head survives: the whole queue survives
      have hkeep : popAcked ack (seg :: rest) = seg :: rest := by
        simp only [popAcked]
        rw [if_neg]
        intro hcc
        exact hc (hcond.mp hcc)
      rw [hkeep]
      have hshift : ∀ s ∈ seg :: rest, endOff ack s = endOff una s - wsub ack una := by
        intro s hs
        have hsE : segEnd s < M32 := wadd_lt _ _
        have hgt : wsub ack una ≤ endOff una s := by
          rcases List.mem_cons.mp hs with rfl | hs'
          · omega
          · have := hphead s hs'
            omega
        exact wsub_sub una ack (segEnd s) hu ha hsE hgt
      have hDnew : wsub ls ack = wsub ls una - wsub ack una :=
        wsub_sub una ack ls hu ha hls hle
      constructor
      · intro s hs
        have hsh := hshift s hs
        have hgt : wsub ack una < endOff una s := by
          rcases List.mem_cons.mp hs with rfl | hs'
          · omega
          · exact lt_of_le_of_lt (by omega : wsub ack una ≤ endOff una seg) (hphead s hs')
        have hbs : endOff una s ≤ wsub ls una := by
          rcases List.mem_cons.mp hs with rfl | hs'
          · exact hbseg.2
          · exact (hbrest s hs').2
        constructor
        · omega
        · omega
      · rw [List.pairwise_map]
        have hpl : ((seg :: rest).map (endOff una)).Pairwise (fun a b => a < b) := hp
        rw [List.pairwise_map] at hpl
        refine hpl.imp_of_mem ?_
        intro s1 s2 hs1 hs2 hlt12
        have h1 := hshift s1 hs1
        have h2 := hshift s2 hs2
        have hgt2 : wsub ack una < endOff una s2 := by
          rcases List.mem_cons.mp hs1 with rfl | hs1'
          · exact lt_of_le_of_lt (by omega) hlt12
          · exact lt_of_le_of_lt (by omega : wsub ack una ≤ endOff una seg)
              (lt_trans (hphead s1 hs1') hlt12)
        omega

/-- `establishedAckProcess` preserves the TCB invariant when the inbound
ACK number only acknowledges data actually sent. -/
theorem eap_inv (hdr : TcpHdr) (t : TcpControlBlock) (hinv : tcbInv t)
    (hwf : hdr.acknowledgment_number < M32)
    (hvalid : hdr.ack = true →
      0 < wsub hdr.acknowledgment_number t.snd_una →
      wsub hdr.acknowledgment_number t.snd_una < H32 →
      wsub hdr.acknowledgment_number t.snd_una ≤ wsub t.local_seq t.snd_una) :
    tcbInv (establishedAckProcess hdr t) := by
  obtain ⟨h1, h2, h3, h4, h5, h6⟩ := hinv
  unfold establishedAckProcess
  split
  · rename_i hack
    dsimp only
    split
    · rename_i hadv
      have hle := hvalid hack hadv.1 hadv.2
      have hpop := popAcked_spec t.snd_una hdr.acknowledgment_number t.local_seq
        h2 hwf h1 hadv.1 hadv.2 hle h3 t.retransmit_queue h5 h6
      refine ⟨h1, hwf, ?_, ?_, hpop.1, hpop.2⟩
      · show wsub t.local_seq hdr.acknowledgment_number < H32
        rw [wsub_sub t.snd_una hdr.acknowledgment_number t.local_seq h2 hwf h1 hle]
        omega
      · intro hst
        rw [h4 hst]
        rfl
    · exact ⟨h1, h2, h3, h4, h5, h6⟩
  · exact ⟨h1, h2, h3, h4, h5, h6⟩

/-- Frame of the `Established` arm: beyond the ACK processing it never
touches `local_seq` or `snd_una`, it either keeps the retransmit queue or
clears it (RST), and it never enters `SynSent`. -/
theorem establishedStep_frame (now : Nat) (hdr : TcpHdr) (p : List Nat)
    (t : TcpControlBlock) (hstate : t.state = TcpState.Established) :
    ((establishedStep now hdr p t).1.local_seq
        = (establishedAckProcess hdr { t with last_activity := now }).local_seq) ∧
    ((establishedStep now hdr p t).1.snd_una
        = (establishedAckProcess hdr { t with last_activity := now }).snd_una) ∧
    ((establishedStep now hdr p t).1.retransmit_queue
        = (establishedAckProcess hdr { t with last_activity := now }).retransmit_queue ∨
      (establishedStep now hdr p t).1.retransmit_queue = []) ∧
    (establishedStep now hdr p t).1.state ≠ TcpState.SynSent := by
  unfold establishedStep
  dsimp only
  repeat' split
  all_goals refine ⟨rfl, rfl, ?_, ?_⟩
  all_goals first
    | exact Or.inr rfl
    | exact Or.inl rfl
    | (intro hc; simp [eap_state, hstate] at hc)

/-- Executing an action either leaves the TCB unchanged or marks it
`Closed` with a fresh activity timestamp (on a failed data send). -/
theorem executeAction_frame (lp rp now life : Nat) (t : TcpControlBlock)
    (a : TcpPacketAction) :
    (executeAction lp rp now life t a).1 = t ∨
    (executeAction lp rp now life t a).1
      = { t with state := TcpState.Closed, last_activity := now } := by
  cases a <;>
    first
      | exact Or.inl rfl
      | (dsimp only [executeAction]
         split
         · exact Or.inr rfl
         · exact Or.inl rfl)

/-- Marking a TCB `Closed` preserves the invariant. -/
theorem tcbInv_closed (t : TcpControlBlock) (now : Nat) (h : tcbInv t) :
    tcbInv { t with state := TcpState.Closed, last_activity := now } :=
  tcbInv_transfer t _ h rfl rfl (Or.inl rfl) (by intro hc; simp at hc)

/-- `processStep` (the full inbound-packet handling) preserves the TCB
invariant, for any packet whose header fields are in `u32` range and whose
ACK number, when it advances an established connection's `snd_una`, stays
at or below `local_seq`. -/
theorem processStep_inv (lp rp now life : Nat) (hdr : TcpHdr) (p : List Nat)
    (t : TcpControlBlock) (hinv : tcbInv t)
    (_hwf1 : hdr.sequence_number < M32)
    (hwf2 : hdr.acknowledgment_number < M32)
    (hvalid : t.state = TcpState.Established → hdr.ack = true →
      0 < wsub hdr.acknowledgment_number t.snd_una →
      wsub hdr.acknowledgment_number t.snd_una < H32 →
      wsub hdr.acknowledgment_number t.snd_una ≤ wsub t.local_seq t.snd_una) :
    tcbInv (processStep lp rp now life hdr p t).1 := by
  have hstep : tcbInv (tcbStep now hdr p t).1 := by
    unfold tcbStep
    split
    · -- SynSent
      rename_i hst
      obtain ⟨h1, h2, h3, h4, h5, h6⟩ := hinv
      have hqe : t.retransmit_queue = [] := h4 hst
      split
      · -- SYN-ACK: handshake completes
        refine ⟨hwf2, hwf2, ?_, ?_, ?_, ?_⟩
        · dsimp only
          rw [wsub_self]
          simp [H32]
        · intro _
          dsimp only
          exact hqe
        · dsimp only
          rw [hqe]
          simp
        · dsimp only
          rw [hqe]
          simp
      · split
        · -- RST during handshake
          refine tcbInv_transfer t _ ⟨h1, h2, h3, h4, h5, h6⟩ rfl rfl (Or.inl rfl) ?_
          intro hc
          simp at hc
        · exact ⟨h1, h2, h3, h4, h5, h6⟩
    · -- Established
      rename_i hst
      have hmid : tcbInv (establishedAckProcess hdr { t with last_activity := now }) :=
        eap_inv hdr { t with last_activity := now }
          (tcbInv_transfer t _ hinv rfl rfl (Or.inl rfl)
            (fun hc => hinv.2.2.2.1 hc))
          hwf2 (hvalid hst)
      obtain ⟨f1, f2, f3, f4⟩ := establishedStep_frame now hdr p t hst
      exact tcbInv_transfer _ _ hmid f1 f2 f3 (fun hc => absurd hc f4)
    all_goals
      -- FinWait1 / FinWait2 / CloseWait / LastAck / TimeWait / Closed:
      -- local_seq, snd_una and the retransmit queue are untouched and the
      -- state never becomes SynSent
      (rename_i hst
       dsimp only
       repeat' split
       all_goals
         (refine tcbInv_transfer t _ hinv rfl rfl (Or.inl rfl) ?_
          intro hc
          simp [hst] at hc))
  rcases executeAction_frame lp rp now life (tcbStep now hdr p t).1 (tcbStep now hdr p t).2
    with he | he
  · unfold processStep
    rw [he]
    exact hstep
  · unfold processStep
    rw [he]
    exact tcbInv_closed _ now hstep

/-- The chunks of `chunks1360` cover exactly the input bytes. -/
theorem chunks1360_len_sum (l : List Nat) :
    ((chunks1360 l).map List.length).sum = l.length := by
  induction l using chunks1360.induct with
  | case1 => simp [chunks1360_nil]
  | case2 l h hlt ih =>
    rw [chunks1360, dif_neg h]
    simp only [List.map_cons, List.sum_cons, ih, List.length_take, List.length_drop]
    omega

/-- The retransmit segments recorded by `sendChunks` for nonempty chunks
all end strictly inside `(base, base + total]` (offsets from `una`), with
strictly increasing ends. -/
theorem sendChunks_bounds (lp rp now ackN una : Nat) (hu : una < M32) :
    ∀ (cs : List (List Nat)) (seq : Nat), seq < M32 →
      ∀ base, wsub seq una = base →
        base + (cs.map List.length).sum < H32 →
        (∀ c ∈ cs, c ≠ []) →
        (∀ seg ∈ (sendChunks lp rp now ackN seq cs).2,
            base < endOff una seg ∧
            endOff una seg ≤ base + (cs.map List.length).sum) ∧
        (((sendChunks lp rp now ackN seq cs).2.map (endOff una)).Pairwise
          (fun a b => a < b))
  | [], seq => by
    intro _ base _ _ _
    exact ⟨by simp [sendChunks], by simp [sendChunks]⟩
  | [c], seq => by
    intro hseq base hbase hsum hne
    have hc : c ≠ [] := hne c (by simp)
    have hcl : 0 < c.length := List.length_pos.mpr hc
    have hend : endOff una ⟨seq, c, ackFlag ||| pshFlag, now, 0⟩ = base + c.length := by
      show wsub (wadd seq c.length) una = base + c.length
      rw [wsub_wadd_left seq una c.length hseq hu, hbase]
      have : base + c.length < M32 := by
        simp only [List.map_cons, List.map_nil, List.sum_cons, List.sum_nil] at hsum
        simp only [M32, H32] at *
        omega
      exact Nat.mod_eq_of_lt this
    constructor
    · intro seg hseg
      simp only [sendChunks, List.mem_singleton] at hseg
      subst hseg
      rw [hend]
      simp only [List.map_cons, List.map_nil, List.sum_cons, List.sum_nil]
      omega
    · simp [sendChunks]
  | c :: c' :: rest, seq => by
    intro hseq base hbase hsum hne
    have hc : c ≠ [] := hne c (by simp)
    have hcl : 0 < c.length := List.length_pos.mpr hc
    have hsum' : base + c.length + ((c' :: rest).map List.length).sum < H32 := by
      simp only [List.map_cons, List.sum_cons] at hsum ⊢
      omega
    have hseq' : wadd seq c.length < M32 := wadd_lt _ _
    have hbase' : wsub (wadd seq c.length) una = base + c.length := by
      rw [wsub_wadd_left seq una c.length hseq hu, hbase]
      exact Nat.mod_eq_of_lt (by simp only [M32, H32] at *; omega)
    have ih := sendChunks_bounds lp rp now ackN una hu (c' :: rest)
      (wadd seq c.length) hseq' (base + c.length) hbase' hsum'
      (fun x hx => hne x (List.mem_cons_of_mem _ hx))
    have hend : endOff una ⟨seq, c, ackFlag, now, 0⟩ = base + c.length := by
      show wsub (wadd seq c.length) una = base + c.length
      exact hbase'
    constructor
    · intro seg hseg
      simp only [sendChunks] at hseg
      rcases List.mem_cons.mp hseg with rfl | hseg'
      · rw [hend]
        simp only [List.map_cons, List.sum_cons]
        omega
      · have := ih.1 seg hseg'
        simp only [List.map_cons, List.sum_cons] at this ⊢
        omega
    · simp only [sendChunks, List.map_cons]
      rw [List.pairwise_cons]
      refine ⟨?_, ih.2⟩
      intro e he
      rw [hend]
      rcases List.mem_map.mp he with ⟨seg, hseg, rfl⟩
      exact (ih.1 seg hseg).1

/-- `tcp_send` preserves the TCB invariant as long as the outstanding
window (unacknowledged bytes plus the new payload) stays below `2^31`. -/
theorem tcp_send_inv (lp rp now : Nat) (t : TcpControlBlock) (data : List Nat)
    (hinv : tcbInv t)
    (hval : wsub t.local_seq t.snd_una + data.length < H32) :
    tcbInv (match tcp_send lp rp now t data with
            | .ok r => r.1
            | .error _ => t) := by
  obtain ⟨h1, h2, h3, h4, h5, h6⟩ := hinv
  unfold tcp_send
  by_cases hcond : t.state ≠ TcpState.Established ∧ t.state ≠ TcpState.CloseWait
  · rw [if_pos hcond]
    exact ⟨h1, h2, h3, h4, h5, h6⟩
  · rw [if_neg hcond]
    dsimp only
    have hsum : wsub t.local_seq t.snd_una
        + ((chunks1360 data).map List.length).sum < H32 := by
      rw [chunks1360_len_sum]
      exact hval
    have hch := sendChunks_bounds lp rp now t.local_ack t.snd_una h2
      (chunks1360 data) t.local_seq h1 (wsub t.local_seq t.snd_una) rfl hsum
      (chunks1360_ne_nil data)
    have hD' : wsub (wadd t.local_seq data.length) t.snd_una
        = wsub t.local_seq t.snd_una + data.length := by
      rw [wsub_wadd_left t.local_seq t.snd_una data.length h1 h2]
      exact Nat.mod_eq_of_lt (by simp only [M32, H32] at *; omega)
    have hnotsyn : t.state ≠ TcpState.SynSent := by
      intro hcs
      apply hcond
      rw [hcs]
      exact ⟨by simp, by simp⟩
    refine ⟨wadd_lt _ _, h2, ?_, ?_, ?_, ?_⟩
    · show wsub (wadd t.local_seq data.length) t.snd_una < H32
      rw [hD']
      omega
    · intro hc
      exact absurd hc hnotsyn
    · intro seg hseg
      show 0 < endOff t.snd_una seg ∧
        endOff t.snd_una seg ≤ wsub (wadd t.local_seq data.length) t.snd_una
      rw [hD']
      rcases List.mem_append.mp hseg with hold | hnew
      · have := h5 seg hold
        omega
      · have := hch.1 seg hnew
        rw [chunks1360_len_sum] at this
        omega
    · show ((t.retransmit_queue
          ++ (sendChunks lp rp now t.local_ack t.local_seq (chunks1360 data)).2).map
            (endOff t.snd_una)).Pairwise (fun a b => a < b)
      rw [List.map_append, List.pairwise_append]
      refine ⟨h6, hch.2, ?_⟩
      intro e1 he1 e2 he2
      rcases List.mem_map.mp he1 with ⟨s1, hs1, rfl⟩
      rcases List.mem_map.mp he2 with ⟨s2, hs2, rfl⟩
      have hb1 := (h5 s1 hs1).2
      have hb2 := (hch.1 s2 hs2).1
      omega

/-- `tcp_close` preserves the TCB invariant (it clears the retransmit
queue in every state). -/
theorem tcp_close_inv (lp rp : Nat) (t : TcpControlBlock) (hinv : tcbInv t) :
    tcbInv (tcp_close lp rp t).1 := by
  unfold tcp_close
  dsimp only
  split <;>
    exact tcbInv_transfer t _ hinv rfl rfl (Or.inr rfl) (fun _ => rfl)

/-- The retransmission sweep only edits `sent_at` and `retransmit_count`
of one segment: the `(seq, data)` content of the queue, position by
position, is unchanged. -/
theorem sweepQueue_content (now rto : Nat) :
    ∀ q : List RetransmitSegment,
      (sweepQueue now rto q).2.1.map (fun s => (s.seq, s.data))
        = q.map (fun s => (s.seq, s.data))
  | [] => rfl
  | seg :: rest => by
    simp only [sweepQueue]
    split
    · split
      · simp only [List.map_cons]
        rw [sweepQueue_content now rto rest]
      · rfl
    · rfl

/-- `check_retransmissions` preserves the TCB invariant. -/
theorem check_retrans_inv (now : Nat) (t : TcpControlBlock) (hinv : tcbInv t) :
    tcbInv (check_retransmissions now t).1 := by
  obtain ⟨h1, h2, h3, h4, h5, h6⟩ := hinv
  unfold check_retransmissions
  split
  · exact ⟨h1, h2, h3, h4, h5, h6⟩
  · rename_i hst
    dsimp only
    have hcontent := sweepQueue_content now t.rto t.retransmit_queue
    have hmap : (sweepQueue now t.rto t.retransmit_queue).2.1.map (endOff t.snd_una)
        = t.retransmit_queue.map (endOff t.snd_una) := by
      have : ∀ q : List RetransmitSegment,
          q.map (endOff t.snd_una)
            = (q.map (fun s => (s.seq, s.data))).map
                (fun pr => wsub (wadd pr.1 pr.2.length) t.snd_una) := by
        intro q
        rw [List.map_map]
        rfl
      rw [this, this, hcontent]
    have hnotsyn : t.state ≠ TcpState.SynSent := by
      intro hc
      rw [hc] at hst
      simp at hst
    refine ⟨h1, h2, h3, fun hc => absurd hc hnotsyn, ?_, ?_⟩
    · intro seg hseg
      have hpair : (seg.seq, seg.data)
          ∈ t.retransmit_queue.map (fun s => (s.seq, s.data)) := by
        rw [← hcontent]
        exact List.mem_map_of_mem _ hseg
      rcases List.mem_map.mp hpair with ⟨s0, hs0, heq⟩
      injection heq with he1 he2
      have hoff : endOff t.snd_una seg = endOff t.snd_una s0 := by
        show wsub (wadd seg.seq seg.data.length) t.snd_una
          = wsub (wadd s0.seq s0.data.length) t.snd_una
        rw [← he1, ← he2]
      rw [hoff]
      exact h5 s0 hs0
    · show ((sweepQueue now t.rto t.retransmit_queue).2.1.map
          (endOff t.snd_una)).Pairwise (fun a b => a < b)
      rw [hmap]
      exact h6

/-- Every valid operation preserves the TCB invariant. -/
theorem applyOp_inv (lp rp : Nat) (t : TcpControlBlock) (op : StackOp)
    (hinv : tcbInv t) (hv : validOp t op) : tcbInv (applyOp lp rp t op) := by
  cases op with
  | send now data => exact tcp_send_inv lp rp now t data hinv hv
  | close => exact tcp_close_inv lp rp t hinv
  | packet now life hdr p =>
    exact processStep_inv lp rp now life hdr p t hinv hv.1 hv.2.1 hv.2.2
  | retrans now => exact check_retrans_inv now t hinv

/-- A valid trace preserves the TCB invariant. -/
theorem applyOps_inv (lp rp : Nat) (ops : List StackOp) :
    ∀ t : TcpControlBlock, tcbInv t → validTrace lp rp t ops →
      tcbInv (applyOps lp rp t ops) := by
  induction ops with
  | nil => intro t h _; exact h
  | cons op rest ih =>
    intro t h hv
    exact ih _ (applyOp_inv lp rp t op h hv.1) hv.2

/-- The SYN-ACK completing the handshake in the C4 counterexample trace:
the peer acknowledges our ISN region with ack 1000. -/
def c4synAckHdr : TcpHdr :=
  { mkDataHdr 500 with syn := true, ack := true, acknowledgment_number := 1000 }

/-- The poisonous pure ACK of the C4 counterexample trace: the peer
acknowledges 100 bytes that were never sent. -/
def c4badAckHdr : TcpHdr :=
  { mkDataHdr 501 with ack := true, acknowledgment_number := 1100 }

/-- The TCB after `tcp_connect` with ISN 1000 followed by the two inbound
packets above. -/
def c4tcb : TcpControlBlock :=
  applyOps 49152 80 (tcp_connect_tcb 1000 0)
    [.packet 1 16 c4synAckHdr [], .packet 2 16 c4badAckHdr []]

/-- C4 counterexample: with arbitrary peer-chosen header fields a pure ACK
for 100 bytes never sent moves `snd_una` to 1100 while `local_seq` stays
at 1000, so `(local_seq - snd_una) as i32` is negative: the claimed
invariant `snd_una ≤ local_seq` (modular) fails after two inbound
packets. -/
theorem c4_counterexample :
    c4tcb.local_seq = 1000 ∧ c4tcb.snd_una = 1100 ∧
    H32 ≤ wsub c4tcb.local_seq c4tcb.snd_una := by
  decide

/-- C4 (amended): along any interleaving of `tcp_connect`, `tcp_send`,
`process_incoming_packet`, `tcp_close` and `check_retransmissions` in
which (a) every inbound packet has in-range `u32` header fields and its
ACK number, whenever it advances an established connection's `snd_una`,
acknowledges only data actually sent (stays at or below `local_seq` in
signed-modular order), and (b) the outstanding unacknowledged window
never reaches `2^31` bytes, the TCB always satisfies: `snd_una ≤
local_seq` in signed-modular terms, and every segment in the retransmit
queue *ends* in the modular interval `(snd_una, local_seq]`.  (The
original claim fails on two counts: a peer ACK beyond `local_seq` drives
`snd_una` past it, and after a partial ACK the head segment's *start* may
lie below `snd_una`, so only the segment ends stay in the window.) -/
theorem c4_seq_window_invariant (lp rp isn now0 : Nat) (ops : List StackOp)
    (hisn : isn < M32)
    (hvt : validTrace lp rp (tcp_connect_tcb isn now0) ops) :
    wsub (applyOps lp rp (tcp_connect_tcb isn now0) ops).local_seq
        (applyOps lp rp (tcp_connect_tcb isn now0) ops).snd_una < H32 ∧
    ∀ seg ∈ (applyOps lp rp (tcp_connect_tcb isn now0) ops).retransmit_queue,
      0 < wsub (segEnd seg) (applyOps lp rp (tcp_connect_tcb isn now0) ops).snd_una ∧
      wsub (segEnd seg) (applyOps lp rp (tcp_connect_tcb isn now0) ops).snd_una
        ≤ wsub (applyOps lp rp (tcp_connect_tcb isn now0) ops).local_seq
            (applyOps lp rp (tcp_connect_tcb isn now0) ops).snd_una := by
  have hinit : tcbInv (tcp_connect_tcb isn now0) := by
    refine ⟨hisn, hisn, ?_, fun _ => rfl, ?_, ?_⟩
    · show wsub isn isn < H32
      rw [wsub_self]
      simp [H32]
    · intro seg hseg
      simp [tcp_connect_tcb] at hseg
    · simp [tcp_connect_tcb]
  have h := applyOps_inv lp rp ops (tcp_connect_tcb isn now0) hinit hvt
  exact ⟨h.2.2.1, h.2.2.2.2.1⟩

/-- The SYN-ACK used in the amended-C4 witness trace (well-formed:
acknowledges exactly our SYN with ack 1001). -/
def c4wSynAck : TcpHdr :=
  { mkDataHdr 9000 with syn := true, ack := true, acknowledgment_number := 1001 }

/-- The amended-C4 witness trace: handshake, then send three bytes. -/
def c4wOps : List StackOp := [.packet 1 16 c4wSynAck [], .send 2 [65, 66, 67]]

/-- The TCB reached by the amended-C4 witness trace. -/
def c4wTcb : TcpControlBlock := applyOps 49152 80 (tcp_connect_tcb 1000 0) c4wOps

/-- Witness for the amended C4 on a concrete trace: connect with ISN 1000,
receive a well-formed SYN-ACK (ack 1001), then send three bytes. -/
theorem c4_seq_window_invariant_witness :
    wsub c4wTcb.local_seq c4wTcb.snd_una < H32 ∧
    ∀ seg ∈ c4wTcb.retransmit_queue,
      0 < wsub (segEnd seg) c4wTcb.snd_una ∧
      wsub (segEnd seg) c4wTcb.snd_una ≤ wsub c4wTcb.local_seq c4wTcb.snd_una :=
  c4_seq_window_invariant 49152 80 1000 0 c4wOps (by decide)
    (by refine ⟨⟨by decide, by decide, ?_⟩, ⟨?_, trivial⟩⟩
        · intro hc
          simp [tcp_connect_tcb] at hc
        · simp only [validOp]
          decide)

/-! ### C1: the byte stream delivered to the application -/

/-- The chunks a fully-alive receive channel observes when an action is
executed (the `tx.send` calls of the post-lock `match`, with every send
succeeding): data chunks in order, plus the empty EOF marker where the
code sends `Vec::new()`. -/
def actionDeliveries : TcpPacketAction → List (List Nat)
  | .SendFinAck _ _ => [[]]
  | .SendData _ _ data => [data]
  | .SendMultipleData _ _ data_segments => data_segments
  | .SendDataThenFinAck _ _ data_segments => data_segments ++ [[]]
  | .SignalEof => [[]]
  | _ => []

/-- One inbound segment of the peer's byte stream, described by its offset
and length in the stream (the packet's sequence number is `base + off`),
together with an arbitrary ACK field. -/
structure SegFeed where
  now : Nat
  off : Nat
  len : Nat
  ackF : Bool
  ackN : Nat
deriving DecidableEq, Repr

/-- The TCP header of a data-segment feed (no SYN/FIN/RST). -/
def segHdr (base : Nat) (f : SegFeed) : TcpHdr :=
  { source_port := 80
    destination_port := 49152
    sequence_number := wadd base f.off
    acknowledgment_number := f.ackN
    syn := false
    ack := f.ackF
    fin := false
    rst := false
    psh := false }

/-- The payload of a data-segment feed: the stream bytes at
`[off, off+len)`. -/
def segPayload (stream : List Nat) (f : SegFeed) : List Nat :=
  (stream.drop f.off).take f.len

/-- Feed a list of data segments through `process_incoming_packet` on one
connection, collecting the chunks delivered on the (alive) receive
channel. -/
def feedSegs (stream : List Nat) (base : Nat) :
    TcpControlBlock → List (List Nat) → List SegFeed → TcpControlBlock × List (List Nat)
  | tcb, delivered, [] => (tcb, delivered)
  | tcb, delivered, f :: rest =>
    let r := tcbStep f.now (segHdr base f) (segPayload stream f) tcb
    feedSegs stream base r.1 (delivered ++ actionDeliveries r.2) rest

/-- The peer's stream in the C1 counterexample: 48 bytes starting at
sequence number `0xFFFFFFE0`, i.e. spanning the 32-bit wraparound. -/
def c1stream : List Nat := List.range 48

/-- Base sequence number of the counterexample stream (`2^32 - 32`). -/
def c1base : Nat := 4294967264

/-- An established TCB expecting the counterexample stream. -/
def c1tcb : TcpControlBlock := { estTcb with local_ack := c1base }

/-- The counterexample feed order: the second and third 16-byte segments
arrive out of order first, then the first segment arrives; every segment
of the stream is fed exactly once. -/
def c1feeds : List SegFeed :=
  [⟨1, 16, 16, false, 0⟩, ⟨2, 32, 16, false, 0⟩, ⟨3, 0, 16, false, 0⟩]

/-- C1 counterexample: across the 32-bit wraparound the `BTreeMap` orders
key `0x00000000` before key `0xFFFFFFF0`, so after the in-order segment
fills the gap the flush loop stops at the wrong smallest key; although
every segment of the stream was fed at least once, only the first 16
bytes are ever delivered — the bytes of the other two segments are
skipped, contradicting the claim that the delivered concatenation equals
the peer's in-order stream. -/
theorem c1_counterexample :
    (feedSegs c1stream c1base c1tcb [] c1feeds).2.flatten = c1stream.take 16 ∧
    c1stream.take 16 ≠ c1stream ∧
    (∀ f ∈ c1feeds, f.off + f.len ≤ c1stream.length) ∧
    ((feedSegs c1stream c1base c1tcb [] c1feeds).1.reorder_buffer.map Prod.fst)
      = [0, 4294967280] := by
  decide

/-- `wadd` is associative with a plain addition on the right. -/
theorem wadd_add (a b c : Nat) : wadd (wadd a b) c = wadd a (b + c) := by
  simp only [wadd, M32]
  omega

/-- `wsub` vanishes exactly on equal `u32` values. -/
theorem wsub_eq_zero (u v : Nat) (hu : u < M32) (hv : v < M32) :
    wsub u v = 0 ↔ u = v := by
  simp only [wsub, M32] at *
  omega

/-- `wadd base` is injective on `u32`-sized offsets. -/
theorem wadd_right_cancel (base x y : Nat) (hx : x < M32) (hy : y < M32) :
    wadd base x = wadd base y → x = y := by
  simp only [wadd, M32] at *
  omega

/-- Members of `rbInsert k v buf` are the new binding or old members. -/
theorem rbInsert_mem (k : Nat) (v : List Nat) :
    ∀ buf, ∀ x ∈ rbInsert k v buf, x = (k, v) ∨ x ∈ buf
  | [], x, hx => by
    simp only [rbInsert, List.mem_singleton] at hx
    exact Or.inl hx
  | (k', v') :: rest, x, hx => by
    simp only [rbInsert] at hx
    split at hx
    · rcases List.mem_cons.mp hx with rfl | h
      · exact Or.inl rfl
      · exact Or.inr h
    · split at hx
      · rcases List.mem_cons.mp hx with rfl | h
        · exact Or.inl rfl
        · exact Or.inr (List.mem_cons_of_mem _ h)
      · rcases List.mem_cons.mp hx with rfl | h
        · exact Or.inr (List.mem_cons_self _ _)
        · rcases rbInsert_mem k v rest x h with h' | h'
          · exact Or.inl h'
          · exact Or.inr (List.mem_cons_of_mem _ h')

/-- A data-segment payload has exactly the requested length when the
segment lies inside the stream. -/
theorem segPayload_length (stream : List Nat) (f : SegFeed)
    (hf : f.off + f.len ≤ stream.length) : (segPayload stream f).length = f.len := by
  simp only [segPayload, List.length_take, List.length_drop]
  omega

/-- Well-formedness of a reorder buffer against the peer's stream: every
entry is a slice of the stream keyed by `base +` its offset. -/
def bufWf (stream : List Nat) (base : Nat) (buf : List (Nat × List Nat)) : Prop :=
  ∀ kv ∈ buf, ∃ off, off + kv.2.length ≤ stream.length ∧
    kv.1 = wadd base off ∧ kv.2 = (stream.drop off).take kv.2.length

/-- The delivery invariant tying a TCB to the peer's stream: the
connection is established with no pending FIN, the delivered chunks
concatenate to the stream prefix of their total length, `local_ack`
points just past that prefix, and every buffered segment is a stream
slice at its key's offset. -/
def streamInv (stream : List Nat) (base : Nat) (tcb : TcpControlBlock)
    (delivered : List (List Nat)) : Prop :=
  tcb.state = TcpState.Established ∧
  tcb.pending_fin_seq = none ∧
  delivered.flatten.length ≤ stream.length ∧
  delivered.flatten = stream.take delivered.flatten.length ∧
  tcb.local_ack = wadd base delivered.flatten.length ∧
  bufWf stream base tcb.reorder_buffer

/-- The flush loop, started just past a delivered prefix of length `n` on
a well-formed buffer, ends at some prefix length `m ≥ n`, delivers
exactly the stream bytes `[n, m)`, and leaves a well-formed buffer. -/
theorem flushLoop_stream (stream : List Nat) (base : Nat)
    (hL : stream.length < M32) (_hb : base < M32) :
    ∀ (buf : List (Nat × List Nat)) (bytes n : Nat), n ≤ stream.length →
      bufWf stream base buf →
      ∃ m, n ≤ m ∧ m ≤ stream.length ∧
        (flushLoop buf (wadd base n) bytes).la = wadd base m ∧
        (flushLoop buf (wadd base n) bytes).segs.flatten
          = (stream.drop n).take (m - n) ∧
        bufWf stream base (flushLoop buf (wadd base n) bytes).buf := by
  intro buf
  induction buf with
  | nil =>
    intro bytes n hn _hwf
    refine ⟨n, le_refl n, hn, rfl, by simp [flushLoop], ?_⟩
    intro kv hkv
    simp [flushLoop] at hkv
  | cons kv rest ih =>
    intro bytes n hn hwf
    obtain ⟨k0, v0⟩ := kv
    by_cases hk : k0 = wadd base n
    · obtain ⟨off, hofflen, hkey, hval⟩ := hwf (k0, v0) (List.mem_cons_self _ _)
      have hoffn : off = n := by
        refine wadd_right_cancel base off n ?_ ?_ ?_
        · exact lt_of_le_of_lt (le_trans (Nat.le_add_right _ _) hofflen) hL
        · exact lt_of_le_of_lt hn hL
        · rw [← hkey, hk]
      rw [hoffn] at hofflen hval
      have hla2 : wadd (wadd base n) v0.length = wadd base (n + v0.length) :=
        wadd_add base n v0.length
      have hn2 : n + v0.length ≤ stream.length := hofflen
      have hwfrest : bufWf stream base rest :=
        fun kv h => hwf kv (List.mem_cons_of_mem _ h)
      obtain ⟨m, hm1, hm2, hm3, hm4, hm5⟩ :=
        ih (bytes - v0.length) (n + v0.length) hn2 hwfrest
      rw [← hla2] at hm3 hm4 hm5
      refine ⟨m, by omega, hm2, ?_, ?_, ?_⟩
      · simp only [flushLoop, if_pos hk]
        exact hm3
      · simp only [flushLoop, if_pos hk, List.flatten_cons]
        rw [hm4]
        rw [show m - n = v0.length + (m - (n + v0.length)) by omega]
        rw [List.take_add]
        rw [List.drop_drop]
        rw [← hval]
      · simp only [flushLoop, if_pos hk]
        exact hm5
    · refine ⟨n, le_refl n, hn, ?_, ?_, ?_⟩
      · simp only [flushLoop, if_neg hk]
      · simp only [flushLoop, if_neg hk]
        simp
      · simp only [flushLoop, if_neg hk]
        exact hwf

/-- The two-branch data-delivery dispatch (single segment vs multiple
segments) always emits exactly the flushed segment list. -/
theorem actionDeliveries_dataCase (a b : Nat) (p : List Nat) (s : List (List Nat))
    (t u : TcpControlBlock) :
    actionDeliveries (if (p :: s).length = 1 then
        (t, TcpPacketAction.SendData a b ((p :: s).getLastD []))
      else (u, TcpPacketAction.SendMultipleData a b (p :: s))).2 = p :: s := by
  cases s with
  | nil => simp [actionDeliveries]
  | cons x xs =>
    rw [if_neg (by simp)]
    rfl

theorem feedStep_inv (stream : List Nat) (base : Nat)
    (hL : stream.length < M32) (hb : base < M32)
    (f : SegFeed) (hf : f.off + f.len ≤ stream.length)
    (tcb : TcpControlBlock) (delivered : List (List Nat))
    (hinv : streamInv stream base tcb delivered) :
    streamInv stream base
      (tcbStep f.now (segHdr base f) (segPayload stream f) tcb).1
      (delivered ++ actionDeliveries
        (tcbStep f.now (segHdr base f) (segPayload stream f) tcb).2) := by
  obtain ⟨hstate, hpend, hlen, hjoin, hack, hwf⟩ := hinv
  have hplen : (segPayload stream f).length = f.len := segPayload_length stream f hf
  have hoffL : f.off ≤ stream.length := by omega
  have hdisp : tcbStep f.now (segHdr base f) (segPayload stream f) tcb
      = establishedStep f.now (segHdr base f) (segPayload stream f) tcb := by
    unfold tcbStep
    rw [hstate]
  have heapstate :
      (establishedAckProcess (segHdr base f) { tcb with last_activity := f.now }).state
        = TcpState.Established := by
    rw [eap_state]
    exact hstate
  have heapack :
      (establishedAckProcess (segHdr base f) { tcb with last_activity := f.now }).local_ack
        = tcb.local_ack := eap_local_ack _ _
  have heappend :
      (establishedAckProcess (segHdr base f) { tcb with last_activity := f.now }).pending_fin_seq
        = none := by
    rw [eap_pending]
    exact hpend
  have heapbuf :
      (establishedAckProcess (segHdr base f) { tcb with last_activity := f.now }).reorder_buffer
        = tcb.reorder_buffer := eap_reorder_buffer _ _
  have heapbytes :
      (establishedAckProcess (segHdr base f)
          { tcb with last_activity := f.now }).reorder_buffer_bytes
        = tcb.reorder_buffer_bytes := eap_reorder_bytes _ _
  by_cases hpe : segPayload stream f = []
  · -- pure ACK
    have hstep : tcbStep f.now (segHdr base f) (segPayload stream f) tcb
        = (establishedAckProcess (segHdr base f) { tcb with last_activity := f.now },
           TcpPacketAction.None) := by
      rw [hdisp]
      simp only [establishedStep]
      rw [if_neg (by simp [segHdr]), if_neg (by simp [segHdr]), if_neg (by simp [hpe])]
    rw [hstep]
    dsimp only
    simp only [actionDeliveries, List.append_nil]
    exact ⟨heapstate, heappend, hlen, hjoin, by rw [heapack, hack], by rw [heapbuf]; exact hwf⟩
  · -- payload nonempty: duplicate, in-order, or out-of-order
    have hseq : wsub (segHdr base f).sequence_number
        (establishedAckProcess (segHdr base f)
          { tcb with last_activity := f.now }).local_ack
        = wsub (wadd base f.off) tcb.local_ack := by
      rw [heapack]
      rfl
    by_cases hdup : H32 ≤ wsub (wadd base f.off) tcb.local_ack
    · -- duplicate / retransmit: pure ACK back, nothing changes
      have hstep : tcbStep f.now (segHdr base f) (segPayload stream f) tcb
          = (establishedAckProcess (segHdr base f) { tcb with last_activity := f.now },
             TcpPacketAction.SendAck
               (establishedAckProcess (segHdr base f)
                 { tcb with last_activity := f.now }).local_seq
               (establishedAckProcess (segHdr base f)
                 { tcb with last_activity := f.now }).local_ack) := by
        rw [hdisp]
        simp only [establishedStep]
        rw [if_neg (by simp [segHdr]), if_neg (by simp [segHdr]), if_pos hpe, hseq,
          if_pos hdup]
      rw [hstep]
      dsimp only
      simp only [actionDeliveries, List.append_nil]
      exact ⟨heapstate, heappend, hlen, hjoin, by rw [heapack, hack],
        by rw [heapbuf]; exact hwf⟩
    · by_cases hz : wsub (wadd base f.off) tcb.local_ack = 0
      · -- in-order segment: deliver payload and flush the buffer
        have hoffn : f.off = delivered.flatten.length := by
          refine wadd_right_cancel base f.off delivered.flatten.length
            (lt_of_le_of_lt hoffL hL) (lt_of_le_of_lt hlen hL) ?_
          refine (wsub_eq_zero (wadd base f.off) (wadd base delivered.flatten.length)
            (wadd_lt _ _) (wadd_lt _ _)).mp ?_
          rw [← hack]
          exact hz
        have hfields :
            ((tcbStep f.now (segHdr base f) (segPayload stream f) tcb).1.state
                = TcpState.Established) ∧
            ((tcbStep f.now (segHdr base f) (segPayload stream f) tcb).1.pending_fin_seq
                = none) ∧
            ((tcbStep f.now (segHdr base f) (segPayload stream f) tcb).1.local_ack
                = (flushLoop tcb.reorder_buffer
                    (wadd (segHdr base f).sequence_number (segPayload stream f).length)
                    tcb.reorder_buffer_bytes).la) ∧
            ((tcbStep f.now (segHdr base f) (segPayload stream f) tcb).1.reorder_buffer
                = (flushLoop tcb.reorder_buffer
                    (wadd (segHdr base f).sequence_number (segPayload stream f).length)
                    tcb.reorder_buffer_bytes).buf) ∧
            (actionDeliveries (tcbStep f.now (segHdr base f) (segPayload stream f) tcb).2
                = segPayload stream f :: (flushLoop tcb.reorder_buffer
                    (wadd (segHdr base f).sequence_number (segPayload stream f).length)
                    tcb.reorder_buffer_bytes).segs) := by
          rw [hdisp]
          simp only [establishedStep]
          rw [if_neg (by simp [segHdr]), if_neg (by simp [segHdr]), if_pos hpe, hseq,
            if_neg hdup, if_pos hz]
          rw [show (establishedAckProcess (segHdr base f)
              { tcb with last_activity := f.now }).pending_fin_seq = none from heappend]
          rw [heapbuf, heapbytes]
          dsimp only
          refine ⟨?_, ?_, ?_, ?_, ?_⟩
          · split <;> exact heapstate
          · split <;> rfl
          · split <;> rfl
          · split <;> rfl
          · exact actionDeliveries_dataCase _ _ _ _ _ _
        have harg : wadd (segHdr base f).sequence_number (segPayload stream f).length
            = wadd base (delivered.flatten.length + f.len) := by
          show wadd (wadd base f.off) (segPayload stream f).length = _
          rw [hplen, hoffn, wadd_add]
        rw [harg] at hfields
        have hn1 : delivered.flatten.length + f.len ≤ stream.length := by
          rw [← hoffn]
          exact hf
        obtain ⟨m, hm1, hm2, hm3, hm4, hm5⟩ := flushLoop_stream stream base hL hb
          tcb.reorder_buffer tcb.reorder_buffer_bytes
          (delivered.flatten.length + f.len) hn1 hwf
        obtain ⟨hs1, hs2, hs3, hs4, hs5⟩ := hfields
        have hsp : segPayload stream f
            = (stream.drop delivered.flatten.length).take f.len := by
          rw [segPayload, hoffn]
        have hflat : (delivered ++ actionDeliveries
            (tcbStep f.now (segHdr base f) (segPayload stream f) tcb).2).flatten
            = stream.take m := by
          rw [List.flatten_append, hs5, List.flatten_cons, hm4, hsp]
          obtain ⟨D, hD⟩ : ∃ D, delivered.flatten.length = D := ⟨_, rfl⟩
          rw [hD] at hjoin hm1 ⊢
          rw [hjoin, ← List.append_assoc, ← List.take_add, ← List.take_add]
          congr 1
          omega
        have hflen : (delivered ++ actionDeliveries
            (tcbStep f.now (segHdr base f) (segPayload stream f) tcb).2).flatten.length
            = m := by
          rw [hflat, List.length_take]
          omega
        refine ⟨hs1, hs2, ?_, ?_, ?_, ?_⟩
        · rw [hflen]
          exact hm2
        · rw [hflen]
          exact hflat
        · rw [hs3, hm3, hflen]
        · rw [hs4]
          exact hm5
      · -- out-of-order segment: buffered (or dropped), nothing delivered
        have hfields :
            ((tcbStep f.now (segHdr base f) (segPayload stream f) tcb).1.state
                = TcpState.Established) ∧
            ((tcbStep f.now (segHdr base f) (segPayload stream f) tcb).1.pending_fin_seq
                = none) ∧
            ((tcbStep f.now (segHdr base f) (segPayload stream f) tcb).1.local_ack
                = tcb.local_ack) ∧
            (∀ kv ∈ (tcbStep f.now (segHdr base f) (segPayload stream f) tcb).1.reorder_buffer,
                kv = ((segHdr base f).sequence_number, segPayload stream f) ∨
                kv ∈ tcb.reorder_buffer) ∧
            (actionDeliveries (tcbStep f.now (segHdr base f) (segPayload stream f) tcb).2
                = []) := by
          rw [hdisp]
          simp only [establishedStep]
          rw [if_neg (by simp [segHdr]), if_neg (by simp [segHdr]), if_pos hpe, hseq,
            if_neg hdup, if_neg hz]
          split
          · refine ⟨heapstate, heappend, heapack, ?_, rfl⟩
            intro kv hkv
            rw [heapbuf] at hkv
            exact rbInsert_mem _ _ _ kv hkv
          · exact ⟨heapstate, heappend, heapack, fun kv hkv => Or.inr (by
              rw [heapbuf] at hkv
              exact hkv), rfl⟩
        obtain ⟨hs1, hs2, hs3, hs4, hs5⟩ := hfields
        rw [hs5, List.append_nil]
        refine ⟨hs1, hs2, hlen, hjoin, by rw [hs3, hack], ?_⟩
        intro kv hkv
        rcases hs4 kv hkv with rfl | hold
        · refine ⟨f.off, ?_, rfl, ?_⟩
          · rw [hplen]
            exact hf
          · rw [hplen]
            rfl
        · exact hwf kv hold

/-- Feeding any sequence of in-bounds data segments through the stack
preserves the stream-delivery invariant. -/
theorem feedSegs_inv (stream : List Nat) (base : Nat)
    (hL : stream.length < M32) (hb : base < M32) :
    ∀ (feeds : List SegFeed) (tcb : TcpControlBlock) (delivered : List (List Nat)),
      (∀ f ∈ feeds, f.off + f.len ≤ stream.length) →
      streamInv stream base tcb delivered →
      streamInv stream base (feedSegs stream base tcb delivered feeds).1
        (feedSegs stream base tcb delivered feeds).2 := by
  intro feeds
  induction feeds with
  | nil =>
    intro tcb delivered _ hinv
    exact hinv
  | cons f rest ih =>
    intro tcb delivered hbnd hinv
    simp only [feedSegs]
    exact ih _ _ (fun g hg => hbnd g (List.mem_cons_of_mem f hg))
      (feedStep_inv stream base hL hb f (hbnd f (List.mem_cons_self f rest))
        tcb delivered hinv)

/-- C1 (amended): on an established connection whose acknowledgment point
starts at the peer's initial stream offset, any sequence of in-bounds data
segments leaves the application-delivered bytes equal to some in-order
prefix of the peer's stream. -/
theorem c1_delivered_prefix (stream : List Nat) (base : Nat)
    (tcb0 : TcpControlBlock) (feeds : List SegFeed)
    (hL : stream.length < M32) (hb : base < M32)
    (hbnd : ∀ f ∈ feeds, f.off + f.len ≤ stream.length)
    (hstate : tcb0.state = TcpState.Established)
    (hpend : tcb0.pending_fin_seq = none)
    (hack : tcb0.local_ack = base)
    (hbuf : tcb0.reorder_buffer = []) :
    ∃ n, n ≤ stream.length ∧
      (feedSegs stream base tcb0 [] feeds).2.flatten = stream.take n := by
  have hinv0 : streamInv stream base tcb0 [] := by
    refine ⟨hstate, hpend, by simp, by simp, ?_, ?_⟩
    · rw [hack]
      show base = (base + 0) % M32
      rw [Nat.add_zero, Nat.mod_eq_of_lt hb]
    · rw [hbuf]
      intro kv hkv
      cases hkv
  obtain ⟨_, _, hlen, hjoin, _, _⟩ :=
    feedSegs_inv stream base hL hb feeds tcb0 [] hbnd hinv0
  exact ⟨_, hlen, hjoin⟩

theorem c1_delivered_prefix_witness :
    ∃ n, n ≤ c1stream.length ∧
      (feedSegs c1stream c1base c1tcb [] c1feeds).2.flatten = c1stream.take n :=
  c1_delivered_prefix c1stream c1base c1tcb c1feeds (by decide) (by decide)
    (by decide) rfl rfl rfl rfl

end TunStack
